import Mathlib

/-!
# Verification of the deliberate-thinking session server

Shallow embedding of `src/main.rs` of the `deliberate-thinking` repository:
a thought-history state machine (main line, named branches, in-place
revision) combined with a team-collaboration aggregator (discussion log,
backlog, sprint plan, consensus) and a report generator.

Conventions of the embedding:
* Rust `u32` values become `Nat` (the code only lower-bounds them and never
  performs arithmetic that can overflow; the one `usize as u32` cast is kept
  as an explicit `% 2 ^ 32`).
* `HashMap<String, V>` becomes an association list `List (String × V)` whose
  `insert` overwrites in place and whose `remove` erases the keyed entry;
  iteration order of `values()` / `keys()` is the list order.
* The `&mut self` methods become state-passing functions.
* `serde_json::to_value` on the response type cannot fail (plain structs and
  fieldless enum payloads), so response serialization is modelled infallible.
-/

set_option maxHeartbeats 1000000

namespace DeliberateThinking

/-- Embeds `TeamRole` (`src/main.rs` lines 193-199). -/
inductive TeamRole where
  | ProjectManager
  | PragmaticProgrammer
  | ProductVisionary
deriving Repr, DecidableEq

/-- Embeds `impl fmt::Display for TeamRole` (lines 201-209). -/
def TeamRole.display : TeamRole → String
  | TeamRole.ProjectManager => "Project Manager"
  | TeamRole.PragmaticProgrammer => "Pragmatic Programmer"
  | TeamRole.ProductVisionary => "Product Visionary"

/-- Embeds `DiscussionPoint` (lines 211-218). -/
structure DiscussionPoint where
  role : TeamRole
  detail : String
deriving Repr, DecidableEq

/-- Embeds `PriorityLevel` (lines 220-226). -/
inductive PriorityLevel where
  | High
  | Medium
  | Low
deriving Repr, DecidableEq

/-- Embeds `PriorityLevel::rank` (lines 228-236). -/
def PriorityLevel.rank : PriorityLevel → Nat
  | PriorityLevel.High => 0
  | PriorityLevel.Medium => 1
  | PriorityLevel.Low => 2

/-- Embeds `impl fmt::Display for PriorityLevel` (lines 238-246). -/
def PriorityLevel.display : PriorityLevel → String
  | PriorityLevel.High => "High"
  | PriorityLevel.Medium => "Medium"
  | PriorityLevel.Low => "Low"

/-- Embeds `StoryStatus` (lines 248-255). -/
inductive StoryStatus where
  | Todo
  | InProgress
  | Blocked
  | Done
deriving Repr, DecidableEq

/-- Embeds `StoryStatus::rank` (lines 257-266). -/
def StoryStatus.rank : StoryStatus → Nat
  | StoryStatus.InProgress => 0
  | StoryStatus.Todo => 1
  | StoryStatus.Blocked => 2
  | StoryStatus.Done => 3

/-- Embeds `impl fmt::Display for StoryStatus` (lines 268-277). -/
def StoryStatus.display : StoryStatus → String
  | StoryStatus.Todo => "To Do"
  | StoryStatus.InProgress => "In Progress"
  | StoryStatus.Blocked => "Blocked"
  | StoryStatus.Done => "Done"

/-- Embeds `BacklogItem` (lines 279-296). -/
structure BacklogItem where
  id : String
  title : String
  priority : PriorityLevel
  status : StoryStatus
  owner : Option TeamRole
  notes : Option String
deriving Repr, DecidableEq

/-- Embeds `SprintParticipant` (lines 298-309). -/
structure SprintParticipant where
  role : TeamRole
  reasoning : Option String
  responsibilities : List String
deriving Repr, DecidableEq

/-- Embeds `SprintPlan` (lines 311-329). -/
structure SprintPlan where
  sprint_name : String
  goal : String
  duration_days : Nat
  participants : List SprintParticipant
  committed_story_ids : List String
  risks : List String
deriving Repr, DecidableEq

/-- Embeds `ConsensusUpdate` (lines 331-342). -/
structure ConsensusUpdate where
  ready_for_code_changes : Bool
  blockers : List String
  notes : Option String
deriving Repr, DecidableEq

/-- Embeds `ConsensusState` (lines 344-352). -/
structure ConsensusState where
  ready_for_code_changes : Bool
  blockers : List String
  notes : Option String
deriving Repr, DecidableEq

/-- Embeds `impl Default for ConsensusState` (lines 354-362). -/
def ConsensusState.default : ConsensusState :=
  { ready_for_code_changes := false, blockers := [], notes := none }

/-- Embeds `BacklogChangeType` (lines 392-397). -/
inductive BacklogChangeType where
  | Added
  | Updated
  | Removed
deriving Repr, DecidableEq

/-- Embeds `BacklogChange` (lines 364-368). -/
structure BacklogChange where
  change_type : BacklogChangeType
  item : BacklogItem
deriving Repr, DecidableEq

/-- Embeds `BacklogChange::summary` (lines 375-389). -/
def BacklogChange.summary (self : BacklogChange) : String :=
  match self.change_type with
  | BacklogChangeType.Added =>
      "Added " ++ self.item.id ++ " [" ++ self.item.priority.display ++ " | "
        ++ self.item.status.display ++ "]"
  | BacklogChangeType.Updated =>
      "Updated " ++ self.item.id ++ " -> " ++ self.item.status.display ++ " ["
        ++ self.item.priority.display ++ "]"
  | BacklogChangeType.Removed =>
      "Removed " ++ self.item.id ++ " (" ++ self.item.title ++ ")"

/-- Embeds `DeliberateThinkingRequest` (lines 17-81); serde defaults
(`default` on the three list fields) are the caller supplying `[]`. -/
structure DeliberateThinkingRequest where
  thought : String
  next_thought_needed : Bool
  thought_number : Nat
  total_thoughts : Nat
  is_revision : Option Bool
  revises_thought : Option Nat
  branch_from_thought : Option Nat
  branch_id : Option String
  needs_more_thoughts : Option Bool
  role : Option TeamRole
  discussion_points : List DiscussionPoint
  backlog_stories : List BacklogItem
  remove_story_ids : List String
  sprint_plan : Option SprintPlan
  consensus_update : Option ConsensusUpdate
  requires_user_input : Option Bool
deriving Repr, DecidableEq

/-- Embeds `McpError` as used by the server: a numeric code plus message. -/
structure McpError where
  code : Int
  message : String
deriving Repr, DecidableEq

/-- Embeds `create_validation_error` (lines 837-843): code `-32602`. -/
def create_validation_error (message : String) : McpError :=
  { code := -32602, message := message }

/-- Embeds `validate_min_value` (lines 814-823). -/
def validate_min_value (field_name : String) (value min : Nat) :
    Except McpError Unit :=
  if value < min then
    Except.error (create_validation_error
      (field_name ++ " must be at least " ++ toString min))
  else
    Except.ok ()

/-- Model of Rust `str::trim`: drop Unicode whitespace from both ends.
(`String.trim` of the Lean core library is defined by well-founded
recursion and is avoided so that concrete witnesses evaluate.) -/
def strTrim (s : String) : String :=
  String.mk
    (((s.data.dropWhile Char.isWhitespace).reverse.dropWhile
        Char.isWhitespace).reverse)

/-- Embeds `validate_non_empty` (lines 825-834). -/
def validate_non_empty (field_name : String) (value : String) :
    Except McpError Unit :=
  if strTrim value = "" then
    Except.error (create_validation_error (field_name ++ " cannot be empty"))
  else
    Except.ok ()

/-- Strict sequencing of two validation results: the `?` operator of the
Rust `validate` body. -/
def seqV (a b : Except McpError Unit) : Except McpError Unit :=
  match a with
  | Except.error e => Except.error e
  | Except.ok _ => b

/-- The `for point in &self.discussion_points` loop of `validate`
(lines 105-107). -/
def validate_points : List DiscussionPoint → Except McpError Unit
  | [] => Except.ok ()
  | point :: rest =>
      seqV (validate_non_empty "discussionPoints.detail" point.detail)
        (validate_points rest)

/-- The `for story in &self.backlog_stories` loop of `validate`
(lines 109-112). -/
def validate_stories : List BacklogItem → Except McpError Unit
  | [] => Except.ok ()
  | story :: rest =>
      seqV (validate_non_empty "backlogStories.id" story.id)
        (seqV (validate_non_empty "backlogStories.title" story.title)
          (validate_stories rest))

/-- The `for story_id in &self.remove_story_ids` loop of `validate`
(lines 114-116). -/
def validate_remove_ids : List String → Except McpError Unit
  | [] => Except.ok ()
  | story_id :: rest =>
      seqV (validate_non_empty "removeStoryIds[]" story_id)
        (validate_remove_ids rest)

/-- Embeds `DeliberateThinkingRequest::validate` (lines 85-125). -/
def DeliberateThinkingRequest.validate (self : DeliberateThinkingRequest) :
    Except McpError Unit :=
  seqV (validate_min_value "thoughtNumber" self.thought_number 1)
  (seqV (validate_min_value "totalThoughts" self.total_thoughts 1)
  (seqV (match self.revises_thought with
         | some revises => validate_min_value "revisesThought" revises 1
         | none => Except.ok ())
  (seqV (match self.branch_from_thought with
         | some branch_from => validate_min_value "branchFromThought" branch_from 1
         | none => Except.ok ())
  (seqV (match self.role with
         | some TeamRole.ProjectManager =>
             if strTrim self.thought = "" then
               Except.error (create_validation_error
                 "Project manager updates must include a summary thought")
             else Except.ok ()
         | _ => Except.ok ())
  (seqV (validate_points self.discussion_points)
  (seqV (validate_stories self.backlog_stories)
  (seqV (validate_remove_ids self.remove_story_ids)
  (match self.sprint_plan with
   | some plan =>
       seqV (validate_non_empty "sprintPlan.sprintName" plan.sprint_name)
         (seqV (validate_non_empty "sprintPlan.goal" plan.goal)
           (validate_min_value "sprintPlan.durationDays" plan.duration_days 1))
   | none => Except.ok ()))))))))

/-- Embeds `ThoughtData` (lines 163-175). -/
structure ThoughtData where
  thought : String
  thought_number : Nat
  total_thoughts : Nat
  next_thought_needed : Bool
  is_revision : Option Bool
  revises_thought : Option Nat
  branch_from_thought : Option Nat
  branch_id : Option String
  needs_more_thoughts : Option Bool
deriving Repr, DecidableEq

/-- Embeds `impl From<DeliberateThinkingRequest> for ThoughtData`
(lines 177-191). -/
def ThoughtData.ofRequest (req : DeliberateThinkingRequest) : ThoughtData :=
  { thought := req.thought
    thought_number := req.thought_number
    total_thoughts := req.total_thoughts
    next_thought_needed := req.next_thought_needed
    is_revision := req.is_revision
    revises_thought := req.revises_thought
    branch_from_thought := req.branch_from_thought
    branch_id := req.branch_id
    needs_more_thoughts := req.needs_more_thoughts }

/-- Association-list model of `HashMap<String, V>`: `contains_key`. -/
def amContainsKey {α : Type} : List (String × α) → String → Bool
  | [], _ => false
  | p :: rest, k => p.1 == k || amContainsKey rest k

/-- Association-list model of `HashMap<String, V>`: `get`. -/
def amGet {α : Type} : List (String × α) → String → Option α
  | [], _ => none
  | p :: rest, k => if p.1 = k then some p.2 else amGet rest k

/-- Association-list model of `HashMap<String, V>`: `insert` overwrites in
place when the key is present, otherwise adds a new entry. -/
def amInsert {α : Type} : List (String × α) → String → α → List (String × α)
  | [], k, v => [(k, v)]
  | p :: rest, k, v =>
      if p.1 = k then (k, v) :: rest else p :: amInsert rest k v

/-- Association-list model of `HashMap<String, V>`: the state part of
`remove` — drop the keyed entry. -/
def amErase {α : Type} : List (String × α) → String → List (String × α)
  | [], _ => []
  | p :: rest, k => if p.1 = k then rest else p :: amErase rest k

/-- Association-list model of `HashMap<String, BacklogItem>`. -/
abbrev Backlog := List (String × BacklogItem)

/-- `HashMap::contains_key` on the backlog. -/
abbrev backlogContainsKey (m : Backlog) (k : String) : Bool := amContainsKey m k

/-- `HashMap::get` on the backlog. -/
abbrev backlogGet (m : Backlog) (k : String) : Option BacklogItem := amGet m k

/-- `HashMap::insert` on the backlog. -/
abbrev backlogInsert (m : Backlog) (k : String) (v : BacklogItem) : Backlog :=
  amInsert m k v

/-- `HashMap::remove` on the backlog, the state part. -/
abbrev backlogErase (m : Backlog) (k : String) : Backlog := amErase m k

/-- Embeds `TeamUpdateOutcome` (lines 399-407). -/
structure TeamUpdateOutcome where
  pm_summary : Option String
  new_discussion_points : List DiscussionPoint
  backlog_changes : List BacklogChange
  sprint_plan_updated : Option SprintPlan
  consensus_state : Option ConsensusState
  awaiting_user_input : Option Bool
deriving Repr, DecidableEq

/-- `TeamUpdateOutcome::default()`. -/
def TeamUpdateOutcome.default : TeamUpdateOutcome :=
  { pm_summary := none
    new_discussion_points := []
    backlog_changes := []
    sprint_plan_updated := none
    consensus_state := none
    awaiting_user_input := none }

/-- Embeds `TeamState` (lines 442-450). -/
structure TeamState where
  pm_summaries : List String
  discussion_log : List DiscussionPoint
  backlog : Backlog
  active_sprint : Option SprintPlan
  consensus : ConsensusState
  awaiting_user_input : Bool
deriving Repr, DecidableEq

/-- Embeds `impl Default for TeamState` (lines 452-463). -/
def TeamState.default : TeamState :=
  { pm_summaries := []
    discussion_log := []
    backlog := []
    active_sprint := none
    consensus := ConsensusState.default
    awaiting_user_input := false }

/-- Body of the `for story in &request.backlog_stories` loop of
`TeamState::process_request` (lines 499-509), acting on the
(state, outcome) accumulator. -/
def applyStory (acc : TeamState × TeamUpdateOutcome) (story : BacklogItem) :
    TeamState × TeamUpdateOutcome :=
  let change_type :=
    if amContainsKey acc.1.backlog story.id then BacklogChangeType.Updated
    else BacklogChangeType.Added
  ({ acc.1 with backlog := amInsert acc.1.backlog story.id story },
   { acc.2 with backlog_changes :=
       acc.2.backlog_changes ++ [{ change_type := change_type, item := story }] })

/-- Body of the `for story_id in &request.remove_story_ids` loop of
`TeamState::process_request` (lines 511-517). -/
def applyRemoval (acc : TeamState × TeamUpdateOutcome) (story_id : String) :
    TeamState × TeamUpdateOutcome :=
  match amGet acc.1.backlog story_id with
  | some removed =>
      ({ acc.1 with backlog := amErase acc.1.backlog story_id },
       { acc.2 with backlog_changes :=
           acc.2.backlog_changes
             ++ [{ change_type := BacklogChangeType.Removed, item := removed }] })
  | none => acc

/-- The discussion-points block of `TeamState::process_request`
(lines 469-476). -/
def stage_discussion (request : DeliberateThinkingRequest)
    (acc : TeamState × TeamUpdateOutcome) : TeamState × TeamUpdateOutcome :=
  if request.discussion_points = [] then acc
  else
    ({ acc.1 with discussion_log :=
         acc.1.discussion_log ++ request.discussion_points },
     { acc.2 with new_discussion_points :=
         acc.2.new_discussion_points ++ request.discussion_points })

/-- The narrative-promotion block of `TeamState::process_request`
(lines 478-497). -/
def stage_narrative (request : DeliberateThinkingRequest)
    (acc : TeamState × TeamUpdateOutcome) : TeamState × TeamUpdateOutcome :=
  match request.role with
  | some TeamRole.ProjectManager =>
      let summary := strTrim request.thought
      if summary = "" then acc
      else
        ({ acc.1 with pm_summaries := acc.1.pm_summaries ++ [summary] },
         { acc.2 with pm_summary := some summary })
  | some role =>
      if acc.2.new_discussion_points = [] then
        let note := strTrim request.thought
        if note = "" then acc
        else
          let derived : DiscussionPoint := { role := role, detail := note }
          ({ acc.1 with discussion_log := acc.1.discussion_log ++ [derived] },
           { acc.2 with new_discussion_points :=
               acc.2.new_discussion_points ++ [derived] })
      else acc
  | none => acc

/-- The sprint-plan block of `TeamState::process_request` (lines 519-522). -/
def stage_sprint (request : DeliberateThinkingRequest)
    (acc : TeamState × TeamUpdateOutcome) : TeamState × TeamUpdateOutcome :=
  match request.sprint_plan with
  | some plan =>
      ({ acc.1 with active_sprint := some plan },
       { acc.2 with sprint_plan_updated := some plan })
  | none => acc

/-- The consensus block of `TeamState::process_request` (lines 524-529). -/
def stage_consensus (request : DeliberateThinkingRequest)
    (acc : TeamState × TeamUpdateOutcome) : TeamState × TeamUpdateOutcome :=
  match request.consensus_update with
  | some update =>
      let consensus : ConsensusState :=
        { ready_for_code_changes := update.ready_for_code_changes
          blockers := update.blockers
          notes := update.notes }
      ({ acc.1 with consensus := consensus },
       { acc.2 with consensus_state := some consensus })
  | none => acc

/-- The waiting-flag block of `TeamState::process_request`
(lines 531-534). -/
def stage_waiting (request : DeliberateThinkingRequest)
    (acc : TeamState × TeamUpdateOutcome) : TeamState × TeamUpdateOutcome :=
  match request.requires_user_input with
  | some needs_input =>
      ({ acc.1 with awaiting_user_input := needs_input },
       { acc.2 with awaiting_user_input := some needs_input })
  | none => acc

/-- Embeds `TeamState::process_request` (lines 466-537) as the composition
of its sequential blocks; the `&mut self` method returns the updated state
together with the outcome. -/
def TeamState.process_request (self : TeamState)
    (request : DeliberateThinkingRequest) : TeamState × TeamUpdateOutcome :=
  stage_waiting request
    (stage_consensus request
      (stage_sprint request
        (request.remove_story_ids.foldl applyRemoval
          (request.backlog_stories.foldl applyStory
            (stage_narrative request
              (stage_discussion request (self, TeamUpdateOutcome.default)))))))

/-- `Ord::cmp` on `u32` ranks (`a.cmp(&b)`). -/
def natCompare (x y : Nat) : Ordering :=
  if x < y then Ordering.lt else if y < x then Ordering.gt else Ordering.eq

/-- `Ord::cmp` on `String` (`a.id.cmp(&b.id)`); byte-wise UTF-8 comparison
coincides with the codepoint-lexicographic order used by Lean `String`. -/
def strCompare (x y : String) : Ordering :=
  if x < y then Ordering.lt else if y < x then Ordering.gt else Ordering.eq

/-- The comparator closure of `TeamState::ordered_backlog` (lines 680-686):
priority rank, then status rank, then id. -/
def cmpItem (a b : BacklogItem) : Ordering :=
  ((natCompare a.priority.rank b.priority.rank).then
      (natCompare a.status.rank b.status.rank)).then
    (strCompare a.id b.id)

/-- `sort_by` admits exactly the permutations in which no adjacent pair
compares `gt`; the non-`gt` relation is the sortedness order. -/
def backlogLe (a b : BacklogItem) : Prop := cmpItem a b ≠ Ordering.gt

instance : DecidableRel backlogLe := fun a b =>
  inferInstanceAs (Decidable (cmpItem a b ≠ Ordering.gt))

/-- Embeds `TeamState::ordered_backlog` (lines 678-688): clone the values
and `sort_by` the comparator; `sort_by` is modelled as insertion sort with
respect to the comparator's non-`gt` relation. -/
def TeamState.ordered_backlog (self : TeamState) : List BacklogItem :=
  List.insertionSort backlogLe (self.backlog.map Prod.snd)

/-- Embeds `bool_to_yes` (lines 691-697). -/
def bool_to_yes (value : Bool) : String := if value then "yes" else "no"

/-- Embeds `ProjectManagerReport` (lines 409-440). -/
structure ProjectManagerReport where
  bullets : List String
  pm_summary : Option String
  new_discussion_points : List DiscussionPoint
  backlog_snapshot : List BacklogItem
  active_sprint : Option SprintPlan
  consensus : ConsensusState
  waiting_on_user : Bool
deriving Repr, DecidableEq

/-- The participant-rendering closure inside `generate_report`
(lines 614-632). -/
def renderParticipant (participant : SprintParticipant) : String :=
  let detail := participant.role.display
  let detail :=
    match participant.reasoning with
    | some reason =>
        if strTrim reason = "" then detail else detail ++ " (" ++ reason ++ ")"
    | none => detail
  if participant.responsibilities = [] then detail
  else detail ++ " - " ++ String.intercalate ", " participant.responsibilities

/-- Embeds `TeamState::generate_report` (lines 539-676); `self` is the
post-merge team state, `outcome` this call's delta. -/
def TeamState.generate_report (self : TeamState)
    (request : DeliberateThinkingRequest) (outcome : TeamUpdateOutcome) :
    ProjectManagerReport :=
  let backlog_snapshot := self.ordered_backlog
  let pm_summary :=
    match outcome.pm_summary with
    | some s => some s
    | none =>
        match self.pm_summaries.getLast? with
        | some s => some s
        | none =>
            match request.role with
            | some TeamRole.ProjectManager =>
                let summary := strTrim request.thought
                if summary = "" then none else some summary
            | _ => none
  let pm_summary_text :=
    match pm_summary with
    | some s => s
    | none => "No project manager summary provided yet"
  let bullet1 := "PM summary: " ++ pm_summary_text
  let bullet2 :=
    if outcome.new_discussion_points ≠ [] then
      "Discussion points: " ++ String.intercalate "; "
        (outcome.new_discussion_points.map
          (fun point => point.role.display ++ ": " ++ point.detail))
    else
      match self.discussion_log.getLast? with
      | some last_point =>
          "Discussion points: " ++ last_point.role.display ++ ": " ++ last_point.detail
      | none => "Discussion points: none recorded yet"
  let bullet3 :=
    if outcome.backlog_changes ≠ [] then
      "Backlog updates: " ++ String.intercalate "; "
        (outcome.backlog_changes.map BacklogChange.summary)
    else if backlog_snapshot = [] then
      "Backlog updates: backlog is empty"
    else
      "Backlog focus: " ++ String.intercalate "; "
        ((backlog_snapshot.take 3).map
          (fun item => item.id ++ " [" ++ item.priority.display ++ " | "
            ++ item.status.display ++ "]"))
  let bullet4 :=
    match (match outcome.sprint_plan_updated with
           | some plan => some plan
           | none => self.active_sprint) with
    | some plan =>
        let stories :=
          if plan.committed_story_ids = [] then "no stories committed"
          else String.intercalate ", " plan.committed_story_ids
        let participants :=
          if plan.participants = [] then "no participants selected"
          else String.intercalate "; " (plan.participants.map renderParticipant)
        "Sprint plan: " ++ plan.sprint_name ++ " goal '" ++ plan.goal
          ++ "' lasting " ++ toString plan.duration_days ++ " day(s); stories "
          ++ stories ++ "; participants " ++ participants
    | none => "Sprint plan: not yet defined"
  let consensus :=
    match outcome.consensus_state with
    | some c => c
    | none => self.consensus
  let blockers :=
    if consensus.blockers = [] then "none"
    else String.intercalate "; " consensus.blockers
  let notes :=
    match consensus.notes with
    | some note => if strTrim note = "" then "no additional notes" else note
    | none => "no additional notes"
  let waiting_on_user :=
    match outcome.awaiting_user_input with
    | some w => w
    | none => self.awaiting_user_input
  let bullet5 :=
    "Consensus: ready_for_code_change=" ++ bool_to_yes consensus.ready_for_code_changes
      ++ " blockers " ++ blockers ++ " notes " ++ notes ++ " waiting_on_user="
      ++ bool_to_yes waiting_on_user
  { bullets := [bullet1, bullet2, bullet3, bullet4, bullet5]
    pm_summary := pm_summary
    new_discussion_points := outcome.new_discussion_points
    backlog_snapshot := backlog_snapshot
    active_sprint := self.active_sprint
    consensus := consensus
    waiting_on_user := waiting_on_user }

/-- Association-list model of `HashMap<String, Vec<ThoughtData>>`. -/
abbrev BranchMap := List (String × List ThoughtData)

/-- `HashMap::contains_key` on the branch map. -/
abbrev branchesContainsKey (m : BranchMap) (k : String) : Bool :=
  amContainsKey m k

/-- `HashMap::get` on the branch map. -/
abbrev branchesGet (m : BranchMap) (k : String) : Option (List ThoughtData) :=
  amGet m k

/-- `HashMap::insert` on the branch map. -/
abbrev branchesInsert (m : BranchMap) (k : String) (v : List ThoughtData) :
    BranchMap :=
  amInsert m k v

/-- Embeds `DeliberateThinkingState` (lines 700-706). -/
structure DeliberateThinkingState where
  thought_history : List ThoughtData
  branches : BranchMap
  current_branch : Option String
  team : TeamState
deriving Repr, DecidableEq

/-- `DeliberateThinkingState::default()`: the empty session. -/
def initialState : DeliberateThinkingState :=
  { thought_history := []
    branches := []
    current_branch := none
    team := TeamState.default }

namespace DeliberateThinkingState

/-- Embeds `get_current_history` (lines 710-719). -/
def get_current_history (self : DeliberateThinkingState) : List ThoughtData :=
  match self.current_branch with
  | some branch_id => (branchesGet self.branches branch_id).getD self.thought_history
  | none => self.thought_history

/-- Embeds `get_history_length` (lines 722-724), with the `usize as u32`
cast kept explicit. -/
def get_history_length (self : DeliberateThinkingState) : Nat :=
  self.get_current_history.length % 2 ^ 32

/-- Embeds `handle_branching` (lines 727-745). -/
def handle_branching (self : DeliberateThinkingState) (branch_from : Nat)
    (branch_id : String) (thought_data : ThoughtData) : DeliberateThinkingState :=
  let self :=
    if branchesContainsKey self.branches branch_id then self
    else
      { self with branches := (branchesInsert self.branches branch_id
          (self.thought_history.takeWhile (fun t => t.thought_number ≤ branch_from))) }
  let self :=
    match branchesGet self.branches branch_id with
    | some branch =>
        { self with branches :=
            branchesInsert self.branches branch_id (branch ++ [thought_data]) }
    | none => self
  { self with current_branch := some branch_id }

/-- Embeds `revise_or_append` (lines 762-768): replace the first record with
the given ordinal, or append when none matches. -/
def revise_or_append (thoughts : List ThoughtData) (revises : Nat)
    (thought_data : ThoughtData) : List ThoughtData :=
  match thoughts with
  | [] => [thought_data]
  | t :: ts =>
      if t.thought_number = revises then thought_data :: ts
      else t :: revise_or_append ts revises thought_data

/-- Embeds `handle_revision` (lines 748-759). -/
def handle_revision (self : DeliberateThinkingState) (revises : Nat)
    (thought_data : ThoughtData) : DeliberateThinkingState :=
  match self.current_branch with
  | some branch_id =>
      match branchesGet self.branches branch_id with
      | some branch =>
          { self with branches := (branchesInsert self.branches branch_id
              (revise_or_append branch revises thought_data)) }
      | none => self
  | none =>
      { self with thought_history :=
          revise_or_append self.thought_history revises thought_data }

/-- Embeds `add_thought` (lines 771-782). -/
def add_thought (self : DeliberateThinkingState) (thought_data : ThoughtData) :
    DeliberateThinkingState :=
  match self.current_branch with
  | some branch_id =>
      match branchesGet self.branches branch_id with
      | some branch =>
          { self with branches :=
              branchesInsert self.branches branch_id (branch ++ [thought_data]) }
      | none => self
  | none =>
      { self with thought_history := self.thought_history ++ [thought_data] }

/-- Embeds `get_branch_names` (lines 785-787). -/
def get_branch_names (self : DeliberateThinkingState) : List String :=
  self.branches.map Prod.fst

end DeliberateThinkingState

/-- Embeds `DeliberateThinkingResponse` (lines 129-161). -/
structure DeliberateThinkingResponse where
  thought_number : Nat
  total_thoughts : Nat
  next_thought_needed : Bool
  branches : List String
  thought_history_length : Nat
  pm_report : ProjectManagerReport
deriving Repr, DecidableEq

/-- The dispatch `match` of `deliberate_thinking` (lines 900-917): fork has
precedence over revision, which has precedence over plain append. -/
def dispatchThought (s : DeliberateThinkingState)
    (request : DeliberateThinkingRequest) (thought_data : ThoughtData) :
    DeliberateThinkingState :=
  match request.branch_from_thought, request.branch_id, request.revises_thought with
  | some branch_from, some branch_id, _ =>
      s.handle_branching branch_from branch_id thought_data
  | _, _, some revises => s.handle_revision revises thought_data
  | _, _, _ => s.add_thought thought_data

/-- Embeds `DeliberateThinkingServer::deliberate_thinking` (lines 884-939):
validate, merge the team delta, dispatch the thought, build the report and
the response.  The locked `&mut` session state is passed explicitly; a
validation failure returns the state unchanged together with the error. -/
def deliberate_thinking (s : DeliberateThinkingState)
    (request : DeliberateThinkingRequest) :
    DeliberateThinkingState × Except McpError DeliberateThinkingResponse :=
  match request.validate with
  | Except.error e => (s, Except.error e)
  | Except.ok _ =>
      let thought_data := ThoughtData.ofRequest request
      let team_result := s.team.process_request request
      let s1 := { s with team := team_result.1 }
      let s2 := dispatchThought s1 request thought_data
      let pm_report := s2.team.generate_report request team_result.2
      let response : DeliberateThinkingResponse :=
        { thought_number := request.thought_number
          total_thoughts := request.total_thoughts
          next_thought_needed := request.next_thought_needed
          branches := s2.get_branch_names
          thought_history_length := s2.get_history_length
          pm_report := pm_report }
      (s2, Except.ok response)

/-- The states reachable from the empty session by any sequence of calls
(failed calls leave the state unchanged, so they are covered too). -/
inductive Reachable : DeliberateThinkingState → Prop
  | init : Reachable initialState
  | step (s : DeliberateThinkingState) (request : DeliberateThinkingRequest) :
      Reachable s → Reachable (deliberate_thinking s request).1

/-- A request with all optional fields absent; concrete witnesses override
individual fields. -/
def baseRequest : DeliberateThinkingRequest :=
  { thought := ""
    next_thought_needed := false
    thought_number := 1
    total_thoughts := 1
    is_revision := none
    revises_thought := none
    branch_from_thought := none
    branch_id := none
    needs_more_thoughts := none
    role := none
    discussion_points := []
    backlog_stories := []
    remove_story_ids := []
    sprint_plan := none
    consensus_update := none
    requires_user_input := none }

/-- Fork base written from the spec's claim wording for comparison with the
source's `take_while`: the main-line records with ordinal ≤ the fork origin,
in original order. -/
def specForkBase (history : List ThoughtData) (branch_from : Nat) :
    List ThoughtData :=
  history.filter (fun t => t.thought_number ≤ branch_from)

/-- The active-branch pointer, when set, names an existing branch. -/
def ActiveBranchWf (s : DeliberateThinkingState) : Prop :=
  ∀ b, s.current_branch = some b → branchesContainsKey s.branches b = true

/-- Keys of an association map are pairwise distinct. -/
def keysNodup {α : Type} (m : List (String × α)) : Prop :=
  (m.map Prod.fst).Nodup

/-- A call with both fork fields present (dispatched by the fork rule). -/
def isForkCall (request : DeliberateThinkingRequest) : Prop :=
  request.branch_from_thought.isSome = true ∧ request.branch_id.isSome = true

/-- A plain append call: no fork pair, no revision target. -/
def isPlainAppend (request : DeliberateThinkingRequest) : Prop :=
  ¬ isForkCall request ∧ request.revises_thought = none

/-- The total order of the backlog snapshot as the claim states it:
priority rank, then status rank, then id ascending. -/
def backlogClaimOrder (a b : BacklogItem) : Prop :=
  a.priority.rank < b.priority.rank ∨
    (a.priority.rank = b.priority.rank ∧
      (a.status.rank < b.status.rank ∨
        (a.status.rank = b.status.rank ∧ a.id ≤ b.id)))

/-- A minimal thought record with a given ordinal, used by concrete
witnesses. -/
def tdEx (n : Nat) : ThoughtData :=
  { thought := "t"
    thought_number := n
    total_thoughts := 1
    next_thought_needed := false
    is_revision := none
    revises_thought := none
    branch_from_thought := none
    branch_id := none
    needs_more_thoughts := none }

/-- Witness state for the revision claim: a two-record main line. -/
def stateC3 : DeliberateThinkingState :=
  { initialState with thought_history := [tdEx 1, tdEx 2] }

/-- Witness request for the revision claim: revise ordinal 1. -/
def reqC3 : DeliberateThinkingRequest :=
  { baseRequest with thought := "rev", revises_thought := some 1 }

/-- Plain append request carrying a given ordinal. -/
def appendReq (n : Nat) : DeliberateThinkingRequest :=
  { baseRequest with thought := "t", thought_number := n }

/-- Counterexample fixture: append ordinal 5, then ordinal 1, starting from
the empty session — a reachable main line whose ordinals are not
ascending. -/
def sC1a : DeliberateThinkingState :=
  (deliberate_thinking initialState (appendReq 5)).1

/-- Second step of the counterexample fixture. -/
def sC1b : DeliberateThinkingState :=
  (deliberate_thinking sC1a (appendReq 1)).1

/-- Fork request used by the C1 counterexample: fork from ordinal 3 into a
new branch while the revision field is also set (exercises precedence). -/
def reqC1 : DeliberateThinkingRequest :=
  { baseRequest with
      thought := "n"
      thought_number := 3
      branch_from_thought := some 3
      branch_id := some "b" }

/-- Witness state for the sticky-context claim: the empty session after one
fork call, so branch `"b"` is active. -/
def sC4 : DeliberateThinkingState :=
  (deliberate_thinking initialState reqC1).1

/-- Witness team state for the consensus claim: stored blockers present. -/
def tsC8 : TeamState :=
  { TeamState.default with
      consensus := { ready_for_code_changes := false,
                     blockers := ["a", "b"], notes := none } }

/-- Witness request for the consensus claim: an update with an empty
blocker list (an explicit clear). -/
def reqC8 : DeliberateThinkingRequest :=
  { baseRequest with
      consensus_update := some { ready_for_code_changes := true,
                                 blockers := [], notes := some "go" } }

/-- Witness backlog story (scenario B's story "A"). -/
def stC6 : BacklogItem :=
  { id := "A", title := "Add login", priority := PriorityLevel.High,
    status := StoryStatus.Todo, owner := none, notes := none }

/-- A second submission of the same story id with a changed title. -/
def stC6b : BacklogItem := { stC6 with title := "Add login v2" }

/-- Scenario A request: thought "kickoff", role project manager. -/
def reqC9 : DeliberateThinkingRequest :=
  { baseRequest with
      thought := "kickoff"
      thought_number := 1
      total_thoughts := 3
      role := some TeamRole.ProjectManager }

/-- Fork-plus-revision request for the C5 witness. -/
def reqC5 : DeliberateThinkingRequest :=
  { baseRequest with
      thought := "x"
      thought_number := 2
      branch_from_thought := some 1
      branch_id := some "alt"
      revises_thought := some 7 }

/-! ## Association-map lemmas -/

theorem amContainsKey_iff_get_isSome {α : Type} (m : List (String × α))
    (k : String) : amContainsKey m k = (amGet m k).isSome := by
  induction m with
  | nil => simp [amContainsKey, amGet]
  | cons p rest ih =>
      by_cases hp : p.1 = k
      · simp [amContainsKey, amGet, hp]
      · have hpb : (p.1 == k) = false := beq_eq_false_iff_ne.mpr hp
        simp [amContainsKey, amGet, hp, hpb]
        exact ih

theorem amGet_insert_self {α : Type} (m : List (String × α)) (k : String)
    (v : α) : amGet (amInsert m k v) k = some v := by
  induction m with
  | nil => simp [amInsert, amGet]
  | cons p rest ih =>
      by_cases hp : p.1 = k
      · simp [amInsert, amGet, hp]
      · simp [amInsert, amGet, hp]
        exact ih

theorem amGet_insert_ne {α : Type} (m : List (String × α)) {k b : String}
    (v : α) (hne : b ≠ k) : amGet (amInsert m k v) b = amGet m b := by
  induction m with
  | nil =>
      have : ¬ k = b := fun h => hne h.symm
      simp [amInsert, amGet, this]
  | cons p rest ih =>
      by_cases hp : p.1 = k
      · have hkb : ¬ k = b := fun h => hne h.symm
        simp [amInsert, amGet, hp, hkb]
      · by_cases hpb : p.1 = b
        · simp [amInsert, amGet, hp, hpb, hne]
        · simp [amInsert, amGet, hp, hpb]
          exact ih

theorem amContainsKey_insert_self {α : Type} (m : List (String × α))
    (k : String) (v : α) : amContainsKey (amInsert m k v) k = true := by
  rw [amContainsKey_iff_get_isSome, amGet_insert_self]
  rfl

theorem amContainsKey_eq_true_of_get {α : Type} {m : List (String × α)}
    {k : String} {v : α} (h : amGet m k = some v) :
    amContainsKey m k = true := by
  rw [amContainsKey_iff_get_isSome, h]
  rfl

theorem amContainsKey_insert_of_contains {α : Type} {m : List (String × α)}
    {b : String} (k : String) (v : α) (h : amContainsKey m b = true) :
    amContainsKey (amInsert m k v) b = true := by
  by_cases hbk : b = k
  · subst hbk
    exact amContainsKey_insert_self m b v
  · rw [amContainsKey_iff_get_isSome, amGet_insert_ne m v hbk,
      ← amContainsKey_iff_get_isSome]
    exact h

theorem amInsert_keys_of_contains {α : Type} {m : List (String × α)}
    {k : String} (v : α) (h : amContainsKey m k = true) :
    (amInsert m k v).map Prod.fst = m.map Prod.fst := by
  induction m with
  | nil => cases h
  | cons p rest ih =>
      by_cases hp : p.1 = k
      · simp [amInsert, hp]
      · simp [amContainsKey, hp] at h
        simp [amInsert, hp, ih h]

theorem amInsert_keys_of_not_contains {α : Type} {m : List (String × α)}
    {k : String} (v : α) (h : amContainsKey m k = false) :
    (amInsert m k v).map Prod.fst = m.map Prod.fst ++ [k] := by
  induction m with
  | nil => simp [amInsert]
  | cons p rest ih =>
      have hsplit : (p.1 == k) = false ∧ amContainsKey rest k = false := by
        have hcons : (p.1 == k || amContainsKey rest k) = false := h
        exact Bool.or_eq_false_iff.mp hcons
      have hp : ¬ p.1 = k := by simpa using hsplit.1
      simp [amInsert, hp, ih hsplit.2]

theorem amErase_keys_sublist {α : Type} (m : List (String × α)) (k : String) :
    ((amErase m k).map Prod.fst).Sublist (m.map Prod.fst) := by
  induction m with
  | nil => simp [amErase]
  | cons p rest ih =>
      by_cases hp : p.1 = k
      · simp only [amErase, if_pos hp, List.map_cons]
        exact (List.Sublist.refl _).cons _
      · simp only [amErase, if_neg hp, List.map_cons]
        exact ih.cons₂ _

theorem not_contains_iff_not_mem_keys {α : Type} (m : List (String × α))
    (k : String) : amContainsKey m k = false ↔ k ∉ m.map Prod.fst := by
  induction m with
  | nil => simp [amContainsKey]
  | cons p rest ih =>
      have hcons : amContainsKey (p :: rest) k = (p.1 == k || amContainsKey rest k) := rfl
      rw [hcons, Bool.or_eq_false_iff, List.map_cons, List.mem_cons]
      constructor
      · rintro ⟨h1, h2⟩ hmem
        rcases hmem with hmem | hmem
        · exact (beq_eq_false_iff_ne.mp h1) hmem.symm
        · exact (ih.mp h2) hmem
      · intro hnot
        constructor
        · rw [beq_eq_false_iff_ne]
          exact fun hh => hnot (Or.inl hh.symm)
        · exact ih.mpr (fun hh => hnot (Or.inr hh))

theorem keysNodup_insert {α : Type} {m : List (String × α)} (k : String)
    (v : α) (h : keysNodup m) : keysNodup (amInsert m k v) := by
  by_cases hc : amContainsKey m k = true
  · unfold keysNodup
    rw [amInsert_keys_of_contains v hc]
    exact h
  · have hc' : amContainsKey m k = false := Bool.eq_false_iff.mpr hc
    unfold keysNodup
    rw [amInsert_keys_of_not_contains v hc']
    have hk : k ∉ m.map Prod.fst := (not_contains_iff_not_mem_keys m k).mp hc'
    refine List.Nodup.append h (List.nodup_singleton k) ?_
    intro a ha hb
    rw [List.mem_singleton] at hb
    subst hb
    exact hk ha

theorem keysNodup_erase {α : Type} {m : List (String × α)} (k : String)
    (h : keysNodup m) : keysNodup (amErase m k) :=
  (amErase_keys_sublist m k).nodup h



theorem validate_min_value_error_code {f : String} {v m : Nat} {e : McpError}
    (h : validate_min_value f v m = Except.error e) : e.code = -32602 := by
  unfold validate_min_value at h
  split at h
  · cases h; rfl
  · cases h

theorem validate_non_empty_error_code {f v : String} {e : McpError}
    (h : validate_non_empty f v = Except.error e) : e.code = -32602 := by
  unfold validate_non_empty at h
  split at h
  · cases h; rfl
  · cases h

theorem seqV_error_code {a b : Except McpError Unit} {e : McpError}
    (ha : ∀ e', a = Except.error e' → e'.code = -32602)
    (hb : ∀ e', b = Except.error e' → e'.code = -32602)
    (h : seqV a b = Except.error e) : e.code = -32602 := by
  cases a with
  | error e' =>
      simp only [seqV] at h
      cases h
      exact ha _ rfl
  | ok u =>
      simp only [seqV] at h
      exact hb e h

theorem validate_points_error_code {l : List DiscussionPoint} {e : McpError}
    (h : validate_points l = Except.error e) : e.code = -32602 := by
  induction l generalizing e with
  | nil => cases h
  | cons p rest ih =>
      exact seqV_error_code (fun _ h' => validate_non_empty_error_code h')
        (fun _ h' => ih h') h

theorem validate_stories_error_code {l : List BacklogItem} {e : McpError}
    (h : validate_stories l = Except.error e) : e.code = -32602 := by
  induction l generalizing e with
  | nil => cases h
  | cons st rest ih =>
      exact seqV_error_code (fun _ h' => validate_non_empty_error_code h')
        (fun _ h' => seqV_error_code
          (fun _ h'' => validate_non_empty_error_code h'')
          (fun _ h'' => ih h'') h') h

theorem validate_remove_ids_error_code {l : List String} {e : McpError}
    (h : validate_remove_ids l = Except.error e) : e.code = -32602 := by
  induction l generalizing e with
  | nil => cases h
  | cons i rest ih =>
      exact seqV_error_code (fun _ h' => validate_non_empty_error_code h')
        (fun _ h' => ih h') h

/-- Every error produced by `DeliberateThinkingRequest::validate` carries
the invalid-params code `-32602`. -/
theorem validate_error_code {request : DeliberateThinkingRequest} {e : McpError}
    (h : request.validate = Except.error e) : e.code = -32602 := by
  unfold DeliberateThinkingRequest.validate at h
  refine seqV_error_code (fun _ h' => validate_min_value_error_code h') ?_ h
  intro e h
  refine seqV_error_code (fun _ h' => validate_min_value_error_code h') ?_ h
  intro e h
  refine seqV_error_code ?_ ?_ h
  · intro e' h'
    cases hr : request.revises_thought with
    | some r => rw [hr] at h'; exact validate_min_value_error_code h'
    | none => rw [hr] at h'; cases h'
  intro e h
  refine seqV_error_code ?_ ?_ h
  · intro e' h'
    cases hb : request.branch_from_thought with
    | some b => rw [hb] at h'; exact validate_min_value_error_code h'
    | none => rw [hb] at h'; cases h'
  intro e h
  refine seqV_error_code ?_ ?_ h
  · intro e' h'
    cases hrole : request.role with
    | some role =>
        cases role with
        | ProjectManager =>
            rw [hrole] at h'
            by_cases hc : strTrim request.thought = ""
            · rw [if_pos hc] at h'
              cases h'
              rfl
            · rw [if_neg hc] at h'
              cases h'
        | PragmaticProgrammer => rw [hrole] at h'; cases h'
        | ProductVisionary => rw [hrole] at h'; cases h'
    | none => rw [hrole] at h'; cases h'
  intro e h
  refine seqV_error_code (fun _ h' => validate_points_error_code h') ?_ h
  intro e h
  refine seqV_error_code (fun _ h' => validate_stories_error_code h') ?_ h
  intro e h
  refine seqV_error_code (fun _ h' => validate_remove_ids_error_code h') ?_ h
  intro e h
  cases hp : request.sprint_plan with
  | some plan =>
      rw [hp] at h
      refine seqV_error_code (fun _ h' => validate_non_empty_error_code h') ?_ h
      intro e h
      exact seqV_error_code (fun _ h' => validate_non_empty_error_code h')
        (fun _ h' => validate_min_value_error_code h') h
  | none => rw [hp] at h; cases h

/-- C2.  Atomicity of failure: a request that fails validation returns the
invalid-params error (code `-32602`) and leaves the entire session state —
thought history, branches, active-branch pointer, and all of `TeamState` —
exactly as it was; more generally every erroring call leaves the state
untouched, so no call leaves the session partially updated. -/
theorem C2_validation_atomicity (s : DeliberateThinkingState)
    (request : DeliberateThinkingRequest) :
    (∀ e, request.validate = Except.error e →
      deliberate_thinking s request = (s, Except.error e) ∧ e.code = -32602) ∧
    (∀ e, (deliberate_thinking s request).2 = Except.error e →
      (deliberate_thinking s request).1 = s) := by
  constructor
  · intro e h
    refine ⟨?_, validate_error_code h⟩
    unfold deliberate_thinking
    rw [h]
  · intro e h
    cases hv : request.validate with
    | error e' =>
        unfold deliberate_thinking
        rw [hv]
    | ok u =>
        exfalso
        unfold deliberate_thinking at h
        rw [hv] at h
        simp at h

/-- Witness for C2 at a concrete invalid request (`thoughtNumber = 0`). -/
theorem C2_validation_atomicity_witness :
    deliberate_thinking initialState { baseRequest with thought_number := 0 }
        = (initialState, Except.error
            (create_validation_error "thoughtNumber must be at least 1"))
      ∧ (create_validation_error "thoughtNumber must be at least 1").code = -32602 :=
  (C2_validation_atomicity initialState
    { baseRequest with thought_number := 0 }).1 _ rfl

/-! ## The thought graph: structural lemmas -/

theorem revise_or_append_not_found {l : List ThoughtData} {r : Nat}
    (td : ThoughtData) (h : ∀ t ∈ l, t.thought_number ≠ r) :
    DeliberateThinkingState.revise_or_append l r td = l ++ [td] := by
  induction l with
  | nil => rfl
  | cons t ts ih =>
      have ht : t.thought_number ≠ r := h t (List.mem_cons_self t ts)
      simp only [DeliberateThinkingState.revise_or_append, if_neg ht,
        List.cons_append, List.cons.injEq, true_and]
      exact ih (fun x hx => h x (List.mem_cons_of_mem t hx))

theorem revise_or_append_found {l : List ThoughtData} {r : Nat}
    (td : ThoughtData) (h : ∃ t ∈ l, t.thought_number = r) :
    ∃ i, ∃ hi : i < l.length,
      (l.get ⟨i, hi⟩).thought_number = r ∧
      DeliberateThinkingState.revise_or_append l r td = l.set i td := by
  induction l with
  | nil =>
      rcases h with ⟨t, ht, _⟩
      cases ht
  | cons t ts ih =>
      by_cases ht : t.thought_number = r
      · refine ⟨0, by simp, by simpa using ht, ?_⟩
        simp [DeliberateThinkingState.revise_or_append, ht]
      · have h' : ∃ x ∈ ts, x.thought_number = r := by
          rcases h with ⟨x, hx, hxr⟩
          rcases List.mem_cons.mp hx with hx' | hx'
          · exact absurd (hx' ▸ hxr) ht
          · exact ⟨x, hx', hxr⟩
        rcases ih h' with ⟨i, hi, hget, heq⟩
        refine ⟨i + 1, Nat.succ_lt_succ hi, by simpa using hget, ?_⟩
        simp [DeliberateThinkingState.revise_or_append, ht, heq]

/-- Extract the post state of a successful call. -/
theorem step_ok_state {s : DeliberateThinkingState}
    {request : DeliberateThinkingRequest} {s' : DeliberateThinkingState}
    {resp : DeliberateThinkingResponse}
    (h : deliberate_thinking s request = (s', Except.ok resp)) :
    s' = dispatchThought { s with team := (s.team.process_request request).1 }
      request (ThoughtData.ofRequest request) := by
  unfold deliberate_thinking at h
  cases hv : request.validate with
  | error e =>
      rw [hv] at h
      exact absurd (congrArg Prod.snd h) (by simp)
  | ok u =>
      rw [hv] at h
      have hfst := congrArg Prod.fst h
      simp only at hfst
      exact hfst.symm

theorem dispatchThought_fork {s : DeliberateThinkingState}
    {request : DeliberateThinkingRequest} {td : ThoughtData}
    {bf : Nat} {bid : String}
    (hbf : request.branch_from_thought = some bf)
    (hbid : request.branch_id = some bid) :
    dispatchThought s request td = s.handle_branching bf bid td := by
  unfold dispatchThought
  rw [hbf, hbid]
  cases request.revises_thought <;> rfl

theorem dispatchThought_revision {s : DeliberateThinkingState}
    {request : DeliberateThinkingRequest} {td : ThoughtData} {r : Nat}
    (hr : request.revises_thought = some r)
    (hnf : request.branch_from_thought = none ∨ request.branch_id = none) :
    dispatchThought s request td = s.handle_revision r td := by
  unfold dispatchThought
  rw [hr]
  rcases hnf with h | h
  · rw [h]
  · rw [h]
    cases request.branch_from_thought <;> rfl

theorem dispatchThought_append {s : DeliberateThinkingState}
    {request : DeliberateThinkingRequest} {td : ThoughtData}
    (hr : request.revises_thought = none)
    (hnf : request.branch_from_thought = none ∨ request.branch_id = none) :
    dispatchThought s request td = s.add_thought td := by
  unfold dispatchThought
  rw [hr]
  rcases hnf with h | h
  · rw [h]
  · rw [h]
    cases request.branch_from_thought <;> rfl

theorem get_current_history_none {s : DeliberateThinkingState}
    (h : s.current_branch = none) :
    s.get_current_history = s.thought_history := by
  unfold DeliberateThinkingState.get_current_history
  rw [h]

theorem get_current_history_some {s : DeliberateThinkingState} {b : String}
    {l : List ThoughtData} (h : s.current_branch = some b)
    (hg : branchesGet s.branches b = some l) :
    s.get_current_history = l := by
  simp only [DeliberateThinkingState.get_current_history, h, hg, Option.getD_some]

/-- `handle_revision` on the main line. -/
theorem handle_revision_none {s : DeliberateThinkingState} {r : Nat}
    (td : ThoughtData) (hcb : s.current_branch = none) :
    s.handle_revision r td
      = { s with thought_history :=
            (DeliberateThinkingState.revise_or_append s.thought_history r td) } := by
  simp only [DeliberateThinkingState.handle_revision, hcb]

/-- `handle_revision` on an existing active branch. -/
theorem handle_revision_some {s : DeliberateThinkingState} {r : Nat}
    (td : ThoughtData) {b : String} {l : List ThoughtData}
    (hcb : s.current_branch = some b)
    (hl : branchesGet s.branches b = some l) :
    s.handle_revision r td
      = { s with branches := (branchesInsert s.branches b
            (DeliberateThinkingState.revise_or_append l r td)) } := by
  simp only [DeliberateThinkingState.handle_revision, hcb, hl]

/-- `add_thought` on the main line. -/
theorem add_thought_none {s : DeliberateThinkingState}
    (td : ThoughtData) (hcb : s.current_branch = none) :
    s.add_thought td
      = { s with thought_history := s.thought_history ++ [td] } := by
  simp only [DeliberateThinkingState.add_thought, hcb]

/-- `add_thought` on an existing active branch. -/
theorem add_thought_some {s : DeliberateThinkingState}
    (td : ThoughtData) {b : String} {l : List ThoughtData}
    (hcb : s.current_branch = some b)
    (hl : branchesGet s.branches b = some l) :
    s.add_thought td
      = { s with branches := (branchesInsert s.branches b (l ++ [td])) } := by
  simp only [DeliberateThinkingState.add_thought, hcb, hl]

/-- For a well-formed state, a revision call rewrites the active context by
`revise_or_append` and preserves the active-branch pointer. -/
theorem handle_revision_spec {s : DeliberateThinkingState} {r : Nat}
    (td : ThoughtData) (hwf : ActiveBranchWf s) :
    (s.handle_revision r td).get_current_history
        = DeliberateThinkingState.revise_or_append s.get_current_history r td
      ∧ (s.handle_revision r td).current_branch = s.current_branch := by
  cases hcb : s.current_branch with
  | none =>
      rw [handle_revision_none td hcb]
      constructor
      · rw [get_current_history_none hcb]
        exact get_current_history_none (by exact hcb)
      · exact hcb
  | some b =>
      have hc := hwf b hcb
      rcases Option.isSome_iff_exists.mp
        (by rw [← amContainsKey_iff_get_isSome]; exact hc) with ⟨l, hl⟩
      have hctx : s.get_current_history = l := get_current_history_some hcb hl
      rw [handle_revision_some td hcb hl]
      constructor
      · rw [hctx]
        exact get_current_history_some (by exact hcb)
          (amGet_insert_self s.branches b _)
      · exact hcb

/-- C3.  Revision postcondition: a revision call (revision target `r`
present, fork fields absent) applied to the active context replaces a record
with ordinal `r` in place — same length, same position, all other records
untouched — when one exists, and otherwise appends the new record to the
same context, growing it by exactly one. -/
theorem C3_revision_postcondition
    (s : DeliberateThinkingState) (request : DeliberateThinkingRequest)
    (s' : DeliberateThinkingState) (resp : DeliberateThinkingResponse) (r : Nat)
    (hwf : ActiveBranchWf s)
    (hr : request.revises_thought = some r)
    (hnf : request.branch_from_thought = none ∨ request.branch_id = none)
    (hstep : deliberate_thinking s request = (s', Except.ok resp)) :
    ((∃ t ∈ s.get_current_history, t.thought_number = r) →
      ∃ i, ∃ hi : i < s.get_current_history.length,
        (s.get_current_history.get ⟨i, hi⟩).thought_number = r ∧
        s'.get_current_history
          = s.get_current_history.set i (ThoughtData.ofRequest request) ∧
        s'.get_current_history.length = s.get_current_history.length ∧
        ∀ j, j ≠ i →
          s'.get_current_history[j]? = s.get_current_history[j]?) ∧
    ((∀ t ∈ s.get_current_history, t.thought_number ≠ r) →
      s'.get_current_history
        = s.get_current_history ++ [ThoughtData.ofRequest request] ∧
      s'.get_current_history.length = s.get_current_history.length + 1) := by
  have hs' := step_ok_state hstep
  have hwf1 : ActiveBranchWf
      { s with team := (s.team.process_request request).1 } :=
    fun b hb => hwf b hb
  have hdisp : s' = DeliberateThinkingState.handle_revision
      { s with team := (s.team.process_request request).1 } r
      (ThoughtData.ofRequest request) := by
    rw [hs', dispatchThought_revision hr hnf]
  have hspec := @handle_revision_spec
    { s with team := (s.team.process_request request).1 } r
    (ThoughtData.ofRequest request) hwf1
  have hctx : s'.get_current_history
      = DeliberateThinkingState.revise_or_append s.get_current_history r
          (ThoughtData.ofRequest request) := by
    rw [hdisp]
    exact hspec.1
  constructor
  · intro hfound
    rcases revise_or_append_found (ThoughtData.ofRequest request) hfound with
      ⟨i, hi, hget, heq⟩
    refine ⟨i, hi, hget, ?_, ?_, ?_⟩
    · rw [hctx, heq]
    · rw [hctx, heq, List.length_set]
    · intro j hj
      rw [hctx, heq]
      exact List.getElem?_set_ne (fun hh => hj hh.symm)
  · intro hnotfound
    constructor
    · rw [hctx, revise_or_append_not_found _ hnotfound]
    · rw [hctx, revise_or_append_not_found _ hnotfound]
      simp

/-- Witness for C3: revising ordinal 1 of a two-record main line replaces
the first record in place. -/
theorem C3_revision_postcondition_witness :
    ∃ i, ∃ hi : i < stateC3.get_current_history.length,
      (stateC3.get_current_history.get ⟨i, hi⟩).thought_number = 1 ∧
      (deliberate_thinking stateC3 reqC3).1.get_current_history
        = stateC3.get_current_history.set i (ThoughtData.ofRequest reqC3) ∧
      (deliberate_thinking stateC3 reqC3).1.get_current_history.length
        = stateC3.get_current_history.length ∧
      ∀ j, j ≠ i →
        (deliberate_thinking stateC3 reqC3).1.get_current_history[j]?
          = stateC3.get_current_history[j]? :=
  (C3_revision_postcondition stateC3 reqC3
      (deliberate_thinking stateC3 reqC3).1 _ 1
      (by intro b hb; simp [stateC3, initialState] at hb)
      rfl (Or.inl rfl) rfl).1
    ⟨tdEx 1, List.mem_cons_self _ _, rfl⟩

/-! ## Forking -/

theorem amInsert_insert {α : Type} (m : List (String × α)) (k : String)
    (v w : α) : amInsert (amInsert m k v) k w = amInsert m k w := by
  induction m with
  | nil => simp [amInsert]
  | cons p rest ih =>
      by_cases hp : p.1 = k
      · simp [amInsert, hp]
      · simp [amInsert, hp, ih]

/-- `handle_branching` into a not-yet-existing branch: copy the `take_while`
prefix of the main line, push the new record, make the branch active. -/
theorem handle_branching_fresh {s : DeliberateThinkingState} {bf : Nat}
    {bid : String} (td : ThoughtData)
    (h : branchesContainsKey s.branches bid = false) :
    s.handle_branching bf bid td
      = { s with
          branches := (branchesInsert s.branches bid
            ((s.thought_history.takeWhile (fun t => t.thought_number ≤ bf))
              ++ [td])),
          current_branch := some bid } := by
  simp only [DeliberateThinkingState.handle_branching, h, Bool.false_eq_true,
    if_false, amGet_insert_self]
  congr 1
  exact amInsert_insert s.branches bid _ _

/-- `handle_branching` into an existing branch: append only; the branch is
not re-derived from the main line. -/
theorem handle_branching_existing {s : DeliberateThinkingState} {bf : Nat}
    {bid : String} (td : ThoughtData) {l : List ThoughtData}
    (hl : branchesGet s.branches bid = some l) :
    s.handle_branching bf bid td
      = { s with
          branches := (branchesInsert s.branches bid (l ++ [td])),
          current_branch := some bid } := by
  have hc : branchesContainsKey s.branches bid = true :=
    amContainsKey_eq_true_of_get hl
  simp only [DeliberateThinkingState.handle_branching, hc, if_true, hl]

/-- For ascending main lines the `take_while` prefix coincides with the
spec-worded filter of all records with ordinal ≤ the fork origin. -/
theorem takeWhile_eq_specForkBase_of_sorted {bf : Nat} {l : List ThoughtData}
    (h : List.Pairwise (fun a b => a.thought_number ≤ b.thought_number) l) :
    l.takeWhile (fun t => t.thought_number ≤ bf) = specForkBase l bf := by
  induction l with
  | nil => rfl
  | cons t ts ih =>
      rcases List.pairwise_cons.mp h with ⟨hhead, htail⟩
      by_cases ht : t.thought_number ≤ bf
      · simp only [specForkBase] at ih ⊢
        simp [List.takeWhile_cons, List.filter_cons, ht, ih htail]
      · simp only [specForkBase] at ih ⊢
        simp [List.takeWhile_cons, List.filter_cons, ht]
        intro x hx
        have := hhead x hx
        omega

/-- C5.  Fork wins over revision: when both fork fields are present the call
is handled by the fork rule regardless of the revision target — the record
is appended to the named branch, the main line and all other branches are
untouched, and no record anywhere is replaced in place. -/
theorem C5_fork_wins (s : DeliberateThinkingState)
    (request : DeliberateThinkingRequest) (s' : DeliberateThinkingState)
    (resp : DeliberateThinkingResponse) (bf : Nat) (bid : String)
    (hbf : request.branch_from_thought = some bf)
    (hbid : request.branch_id = some bid)
    (hstep : deliberate_thinking s request = (s', Except.ok resp)) :
    s' = DeliberateThinkingState.handle_branching
        { s with team := (s.team.process_request request).1 } bf bid
        (ThoughtData.ofRequest request) ∧
    s'.thought_history = s.thought_history ∧
    (∀ b, b ≠ bid → branchesGet s'.branches b = branchesGet s.branches b) ∧
    (∀ old, branchesGet s.branches bid = some old →
      branchesGet s'.branches bid
        = some (old ++ [ThoughtData.ofRequest request])) ∧
    s'.current_branch = some bid := by
  have hs' : s' = DeliberateThinkingState.handle_branching
      { s with team := (s.team.process_request request).1 } bf bid
      (ThoughtData.ofRequest request) := by
    rw [step_ok_state hstep, dispatchThought_fork hbf hbid]
  refine ⟨hs', ?_, ?_, ?_, ?_⟩
  · cases hc : branchesContainsKey s.branches bid with
    | false =>
        have hc1 : branchesContainsKey
            (DeliberateThinkingState.branches
              { s with team := (s.team.process_request request).1 }) bid
            = false := hc
        rw [hs', handle_branching_fresh _ hc1]
    | true =>
        rcases Option.isSome_iff_exists.mp
          (by rw [← amContainsKey_iff_get_isSome]; exact hc) with ⟨l, hl⟩
        have hl1 : branchesGet
            (DeliberateThinkingState.branches
              { s with team := (s.team.process_request request).1 }) bid
            = some l := hl
        rw [hs', handle_branching_existing _ hl1]
  · intro b hb
    cases hc : branchesContainsKey s.branches bid with
    | false =>
        have hc1 : branchesContainsKey
            (DeliberateThinkingState.branches
              { s with team := (s.team.process_request request).1 }) bid
            = false := hc
        rw [hs', handle_branching_fresh _ hc1]
        exact amGet_insert_ne s.branches _ hb
    | true =>
        rcases Option.isSome_iff_exists.mp
          (by rw [← amContainsKey_iff_get_isSome]; exact hc) with ⟨l, hl⟩
        have hl1 : branchesGet
            (DeliberateThinkingState.branches
              { s with team := (s.team.process_request request).1 }) bid
            = some l := hl
        rw [hs', handle_branching_existing _ hl1]
        exact amGet_insert_ne s.branches _ hb
  · intro old hold
    have hold1 : branchesGet
        (DeliberateThinkingState.branches
          { s with team := (s.team.process_request request).1 }) bid
        = some old := hold
    rw [hs', handle_branching_existing _ hold1]
    exact amGet_insert_self s.branches bid _
  · cases hc : branchesContainsKey s.branches bid with
    | false =>
        have hc1 : branchesContainsKey
            (DeliberateThinkingState.branches
              { s with team := (s.team.process_request request).1 }) bid
            = false := hc
        rw [hs', handle_branching_fresh _ hc1]
    | true =>
        rcases Option.isSome_iff_exists.mp
          (by rw [← amContainsKey_iff_get_isSome]; exact hc) with ⟨l, hl⟩
        have hl1 : branchesGet
            (DeliberateThinkingState.branches
              { s with team := (s.team.process_request request).1 }) bid
            = some l := hl
        rw [hs', handle_branching_existing _ hl1]

/-- Witness for C5: a fork call that also carries a revision target is
dispatched as a fork on a concrete state. -/
theorem C5_fork_wins_witness :
    (deliberate_thinking stateC3 reqC5).1
        = DeliberateThinkingState.handle_branching
            { stateC3 with team := (stateC3.team.process_request reqC5).1 } 1
            "alt" (ThoughtData.ofRequest reqC5) ∧
    (deliberate_thinking stateC3 reqC5).1.thought_history
        = stateC3.thought_history ∧
    (∀ b, b ≠ "alt" →
      branchesGet (deliberate_thinking stateC3 reqC5).1.branches b
        = branchesGet stateC3.branches b) ∧
    (∀ old, branchesGet stateC3.branches "alt" = some old →
      branchesGet (deliberate_thinking stateC3 reqC5).1.branches "alt"
        = some (old ++ [ThoughtData.ofRequest reqC5])) ∧
    (deliberate_thinking stateC3 reqC5).1.current_branch = some "alt" :=
  C5_fork_wins stateC3 reqC5 (deliberate_thinking stateC3 reqC5).1 _ 1 "alt"
    rfl rfl rfl

/-- Counterexample for C1: a reachable main line with non-ascending ordinals
(append 5 then 1) forked from ordinal 3 yields the branch `[new record]`
(the `take_while` prefix is empty), not the claim's filter
`[record 1, new record]`. -/
theorem C1_counterexample :
    sC1b.thought_history = [tdEx 5, tdEx 1] ∧
    branchesGet (deliberate_thinking sC1b reqC1).1.branches "b"
        = some [ThoughtData.ofRequest reqC1] ∧
    specForkBase sC1b.thought_history 3 ++ [ThoughtData.ofRequest reqC1]
        = [tdEx 1, ThoughtData.ofRequest reqC1] ∧
    ([ThoughtData.ofRequest reqC1] : List ThoughtData)
        ≠ [tdEx 1, ThoughtData.ofRequest reqC1] := by
  refine ⟨by decide, by decide, by decide, by decide⟩

/-- C1 (amended).  Fork postcondition: when no branch named `B` exists, the
created branch is the longest prefix of the main line consisting of records
with ordinal ≤ `F` (`take_while`) — which equals the set of all records with
ordinal ≤ `F` whenever the main line's ordinals are ascending — followed by
the new record, and `B` becomes active; when `B` already exists the new
record is simply appended and `B` is made active, without re-deriving the
branch from the main line. -/
theorem C1_fork_postcondition (s : DeliberateThinkingState)
    (request : DeliberateThinkingRequest) (s' : DeliberateThinkingState)
    (resp : DeliberateThinkingResponse) (bf : Nat) (bid : String)
    (hbf : request.branch_from_thought = some bf)
    (hbid : request.branch_id = some bid)
    (hstep : deliberate_thinking s request = (s', Except.ok resp)) :
    (branchesContainsKey s.branches bid = false →
      branchesGet s'.branches bid
        = some ((s.thought_history.takeWhile (fun t => t.thought_number ≤ bf))
            ++ [ThoughtData.ofRequest request]) ∧
      s'.current_branch = some bid ∧
      s'.thought_history = s.thought_history) ∧
    (∀ old, branchesGet s.branches bid = some old →
      branchesGet s'.branches bid
        = some (old ++ [ThoughtData.ofRequest request]) ∧
      s'.current_branch = some bid ∧
      s'.thought_history = s.thought_history) ∧
    (List.Pairwise (fun a b => a.thought_number ≤ b.thought_number)
        s.thought_history →
      s.thought_history.takeWhile (fun t => t.thought_number ≤ bf)
        = specForkBase s.thought_history bf) := by
  have hs' : s' = DeliberateThinkingState.handle_branching
      { s with team := (s.team.process_request request).1 } bf bid
      (ThoughtData.ofRequest request) := by
    rw [step_ok_state hstep, dispatchThought_fork hbf hbid]
  refine ⟨?_, ?_, fun hsorted => takeWhile_eq_specForkBase_of_sorted hsorted⟩
  · intro hc
    have hc1 : branchesContainsKey
        (DeliberateThinkingState.branches
          { s with team := (s.team.process_request request).1 }) bid
        = false := hc
    rw [hs', handle_branching_fresh _ hc1]
    exact ⟨amGet_insert_self s.branches bid _, rfl, rfl⟩
  · intro old hold
    have hold1 : branchesGet
        (DeliberateThinkingState.branches
          { s with team := (s.team.process_request request).1 }) bid
        = some old := hold
    rw [hs', handle_branching_existing _ hold1]
    exact ⟨amGet_insert_self s.branches bid _, rfl, rfl⟩

/-- Witness for the amended C1 on a concrete state: forking the
non-ascending main line `[5, 1]` from ordinal 3 into a fresh branch gives
the `take_while` prefix (empty) plus the new record. -/
theorem C1_fork_postcondition_witness :
    branchesGet (deliberate_thinking sC1b reqC1).1.branches "b"
        = some ((sC1b.thought_history.takeWhile
            (fun t => t.thought_number ≤ 3)) ++ [ThoughtData.ofRequest reqC1]) ∧
    (deliberate_thinking sC1b reqC1).1.current_branch = some "b" ∧
    (deliberate_thinking sC1b reqC1).1.thought_history = sC1b.thought_history :=
  (C1_fork_postcondition sC1b reqC1 (deliberate_thinking sC1b reqC1).1 _ 3 "b"
    rfl rfl rfl).1 (by decide)

/-! ## The active-branch invariant -/

/-- The dispatch of a call falls into exactly one of the three rule shapes. -/
theorem dispatch_cases (s : DeliberateThinkingState)
    (request : DeliberateThinkingRequest) (td : ThoughtData) :
    (∃ bf bid, request.branch_from_thought = some bf ∧
      request.branch_id = some bid ∧
      dispatchThought s request td = s.handle_branching bf bid td) ∨
    (∃ r, request.revises_thought = some r ∧
      (request.branch_from_thought = none ∨ request.branch_id = none) ∧
      dispatchThought s request td = s.handle_revision r td) ∨
    (request.revises_thought = none ∧
      (request.branch_from_thought = none ∨ request.branch_id = none) ∧
      dispatchThought s request td = s.add_thought td) := by
  cases hbf : request.branch_from_thought with
  | some bf =>
      cases hbid : request.branch_id with
      | some bid =>
          exact Or.inl ⟨bf, bid, rfl, rfl, dispatchThought_fork hbf hbid⟩
      | none =>
          cases hr : request.revises_thought with
          | some r =>
              exact Or.inr (Or.inl ⟨r, rfl, Or.inr rfl,
                dispatchThought_revision hr (Or.inr hbid)⟩)
          | none =>
              exact Or.inr (Or.inr ⟨rfl, Or.inr rfl,
                dispatchThought_append hr (Or.inr hbid)⟩)
  | none =>
      cases hr : request.revises_thought with
      | some r =>
          exact Or.inr (Or.inl ⟨r, rfl, Or.inl rfl,
            dispatchThought_revision hr (Or.inl hbf)⟩)
      | none =>
          exact Or.inr (Or.inr ⟨rfl, Or.inl rfl,
            dispatchThought_append hr (Or.inl hbf)⟩)

/-- `handle_branching` always leaves the named branch present and active. -/
theorem handle_branching_wf (s : DeliberateThinkingState) (bf : Nat)
    (bid : String) (td : ThoughtData) :
    (s.handle_branching bf bid td).current_branch = some bid ∧
    branchesContainsKey (s.handle_branching bf bid td).branches bid = true := by
  cases hc : branchesContainsKey s.branches bid with
  | false =>
      rw [handle_branching_fresh td hc]
      exact ⟨rfl, amContainsKey_insert_self s.branches bid _⟩
  | true =>
      rcases Option.isSome_iff_exists.mp
        (by rw [← amContainsKey_iff_get_isSome]; exact hc) with ⟨l, hl⟩
      rw [handle_branching_existing td hl]
      exact ⟨rfl, amContainsKey_insert_self s.branches bid _⟩

/-- `handle_revision` preserves the pointer and existing branch keys. -/
theorem handle_revision_wf (s : DeliberateThinkingState) (r : Nat)
    (td : ThoughtData) :
    (s.handle_revision r td).current_branch = s.current_branch ∧
    ∀ b, branchesContainsKey s.branches b = true →
      branchesContainsKey (s.handle_revision r td).branches b = true := by
  cases hcb : s.current_branch with
  | none =>
      rw [handle_revision_none td hcb]
      exact ⟨hcb, fun b hb => hb⟩
  | some bid =>
      cases hg : branchesGet s.branches bid with
      | none =>
          have hid : s.handle_revision r td = s := by
            simp only [DeliberateThinkingState.handle_revision, hcb, hg]
          rw [hid]
          exact ⟨hcb, fun b hb => hb⟩
      | some l =>
          rw [handle_revision_some td hcb hg]
          exact ⟨hcb, fun b hb => amContainsKey_insert_of_contains bid _ hb⟩

/-- `add_thought` preserves the pointer and existing branch keys. -/
theorem add_thought_wf (s : DeliberateThinkingState) (td : ThoughtData) :
    (s.add_thought td).current_branch = s.current_branch ∧
    ∀ b, branchesContainsKey s.branches b = true →
      branchesContainsKey (s.add_thought td).branches b = true := by
  cases hcb : s.current_branch with
  | none =>
      rw [add_thought_none td hcb]
      exact ⟨hcb, fun b hb => hb⟩
  | some bid =>
      cases hg : branchesGet s.branches bid with
      | none =>
          have hid : s.add_thought td = s := by
            simp only [DeliberateThinkingState.add_thought, hcb, hg]
          rw [hid]
          exact ⟨hcb, fun b hb => hb⟩
      | some l =>
          rw [add_thought_some td hcb hg]
          exact ⟨hcb, fun b hb => amContainsKey_insert_of_contains bid _ hb⟩

/-- One call preserves the active-branch well-formedness invariant. -/
theorem step_preserves_wf (s : DeliberateThinkingState)
    (request : DeliberateThinkingRequest) (hwf : ActiveBranchWf s) :
    ActiveBranchWf (deliberate_thinking s request).1 := by
  cases hv : request.validate with
  | error e =>
      have : (deliberate_thinking s request).1 = s := by
        unfold deliberate_thinking
        rw [hv]
      rw [this]
      exact hwf
  | ok u =>
      have hfst : (deliberate_thinking s request).1
          = dispatchThought
              { s with team := (s.team.process_request request).1 } request
              (ThoughtData.ofRequest request) := by
        unfold deliberate_thinking
        rw [hv]
      rw [hfst]
      have hwf1 : ActiveBranchWf
          { s with team := (s.team.process_request request).1 } :=
        fun b hb => hwf b hb
      rcases dispatch_cases { s with team := (s.team.process_request request).1 }
          request (ThoughtData.ofRequest request) with
        ⟨bf, bid, _, _, heq⟩ | ⟨r, _, _, heq⟩ | ⟨_, _, heq⟩
      · rw [heq]
        intro b hb
        rcases handle_branching_wf _ bf bid _ with ⟨hcb, hck⟩
        rw [hcb] at hb
        cases hb
        exact hck
      · rw [heq]
        intro b hb
        rcases handle_revision_wf
          { s with team := (s.team.process_request request).1 } r
          (ThoughtData.ofRequest request) with ⟨hcb, hck⟩
        rw [hcb] at hb
        exact hck b (hwf1 b hb)
      · rw [heq]
        intro b hb
        rcases add_thought_wf
          { s with team := (s.team.process_request request).1 }
          (ThoughtData.ofRequest request) with ⟨hcb, hck⟩
        rw [hcb] at hb
        exact hck b (hwf1 b hb)

/-- Every reachable state is well formed. -/
theorem reachable_wf {s : DeliberateThinkingState} (h : Reachable s) :
    ActiveBranchWf s := by
  induction h with
  | init => intro b hb; cases hb
  | step s request _ ih => exact step_preserves_wf s request ih

/-- C10.  In every state reachable from the empty session, an active-branch
pointer `Some b` always names an existing branch, and `get_current_history`
returns that branch's records — the main-line fallback (and hence the
silent-skip arms of `handle_revision` and `add_thought`) is never
exercised on reachable states. -/
theorem C10_active_branch_invariant (s : DeliberateThinkingState)
    (h : Reachable s) (b : String) (hb : s.current_branch = some b) :
    ∃ l, branchesGet s.branches b = some l ∧ s.get_current_history = l := by
  have hc := reachable_wf h b hb
  rcases Option.isSome_iff_exists.mp
    (by rw [← amContainsKey_iff_get_isSome]; exact hc) with ⟨l, hl⟩
  exact ⟨l, hl, get_current_history_some hb hl⟩

/-- Witness for C10: after one fork call from the empty session the active
branch `"b"` exists and is the current context. -/
theorem C10_active_branch_invariant_witness :
    ∃ l, branchesGet (deliberate_thinking initialState reqC1).1.branches "b"
        = some l ∧
      (deliberate_thinking initialState reqC1).1.get_current_history = l :=
  C10_active_branch_invariant (deliberate_thinking initialState reqC1).1
    (Reachable.step initialState reqC1 Reachable.init) "b" (by decide)

/-- While a branch is active, a revision never touches the main line. -/
theorem handle_revision_history_of_branch {s : DeliberateThinkingState}
    {b : String} (r : Nat) (td : ThoughtData)
    (hcb : s.current_branch = some b) :
    (s.handle_revision r td).thought_history = s.thought_history := by
  cases hg : branchesGet s.branches b with
  | none =>
      have hid : s.handle_revision r td = s := by
        simp only [DeliberateThinkingState.handle_revision, hcb, hg]
      rw [hid]
  | some l =>
      rw [handle_revision_some td hcb hg]

/-- While a branch is active, an append never touches the main line. -/
theorem add_thought_history_of_branch {s : DeliberateThinkingState}
    {b : String} (td : ThoughtData)
    (hcb : s.current_branch = some b) :
    (s.add_thought td).thought_history = s.thought_history := by
  cases hg : branchesGet s.branches b with
  | none =>
      have hid : s.add_thought td = s := by
        simp only [DeliberateThinkingState.add_thought, hcb, hg]
      rw [hid]
  | some l =>
      rw [add_thought_some td hcb hg]

/-- C4.  Sticky active context: while a branch is active, every non-fork
call keeps it active and leaves the main line untouched; the pointer is
never reset to the main line; and a plain append call (no fork pair, no
revision target) appends exactly one record to the current context,
touching no other context. -/
theorem C4_sticky_active_context (s : DeliberateThinkingState)
    (request : DeliberateThinkingRequest) (s' : DeliberateThinkingState)
    (resp : DeliberateThinkingResponse)
    (hwf : ActiveBranchWf s)
    (hstep : deliberate_thinking s request = (s', Except.ok resp)) :
    (∀ b, s.current_branch = some b → ¬ isForkCall request →
      s'.current_branch = some b ∧ s'.thought_history = s.thought_history) ∧
    (s.current_branch.isSome = true → s'.current_branch.isSome = true) ∧
    (isPlainAppend request →
      s'.get_current_history
          = s.get_current_history ++ [ThoughtData.ofRequest request] ∧
      s'.get_current_history.length = s.get_current_history.length + 1 ∧
      s'.current_branch = s.current_branch ∧
      ∀ b', s.current_branch ≠ some b' →
        branchesGet s'.branches b' = branchesGet s.branches b') := by
  have hs' : s' = dispatchThought
      { s with team := (s.team.process_request request).1 } request
      (ThoughtData.ofRequest request) := step_ok_state hstep
  have hwf1 : ActiveBranchWf
      { s with team := (s.team.process_request request).1 } :=
    fun b hb => hwf b hb
  refine ⟨?_, ?_, ?_⟩
  · intro b hb hnf
    rcases dispatch_cases { s with team := (s.team.process_request request).1 }
        request (ThoughtData.ofRequest request) with
      ⟨bf, bid, hbf, hbid, heq⟩ | ⟨r, _, _, heq⟩ | ⟨_, _, heq⟩
    · exact absurd ⟨by rw [hbf]; rfl, by rw [hbid]; rfl⟩ hnf
    · rcases handle_revision_wf
        { s with team := (s.team.process_request request).1 } r
        (ThoughtData.ofRequest request) with ⟨hcb, _⟩
      have hb1 : ({ s with team := (s.team.process_request request).1 }
          : DeliberateThinkingState).current_branch = some b := hb
      constructor
      · rw [hs', heq, hcb]
        exact hb
      · rw [hs', heq]
        exact handle_revision_history_of_branch r _ hb1
    · rcases add_thought_wf
        { s with team := (s.team.process_request request).1 }
        (ThoughtData.ofRequest request) with ⟨hcb, _⟩
      have hb1 : ({ s with team := (s.team.process_request request).1 }
          : DeliberateThinkingState).current_branch = some b := hb
      constructor
      · rw [hs', heq, hcb]
        exact hb
      · rw [hs', heq]
        exact add_thought_history_of_branch _ hb1
  · intro hsome
    rcases Option.isSome_iff_exists.mp hsome with ⟨b, hb⟩
    rcases dispatch_cases { s with team := (s.team.process_request request).1 }
        request (ThoughtData.ofRequest request) with
      ⟨bf, bid, _, _, heq⟩ | ⟨r, _, _, heq⟩ | ⟨_, _, heq⟩
    · rw [hs', heq, (handle_branching_wf _ bf bid _).1]
      rfl
    · rw [hs', heq, (handle_revision_wf _ r _).1]
      rw [show ({ s with team := (s.team.process_request request).1 }
        : DeliberateThinkingState).current_branch = some b from hb]
      rfl
    · rw [hs', heq, (add_thought_wf _ _).1]
      rw [show ({ s with team := (s.team.process_request request).1 }
        : DeliberateThinkingState).current_branch = some b from hb]
      rfl
  · rintro ⟨hnf, hr⟩
    rcases dispatch_cases { s with team := (s.team.process_request request).1 }
        request (ThoughtData.ofRequest request) with
      ⟨bf, bid, hbf, hbid, heq⟩ | ⟨r, hr', _, heq⟩ | ⟨_, _, heq⟩
    · exact absurd ⟨by rw [hbf]; rfl, by rw [hbid]; rfl⟩ hnf
    · rw [hr] at hr'
      cases hr'
    · cases hcb : s.current_branch with
      | none =>
          have hcb1 : ({ s with team := (s.team.process_request request).1 }
              : DeliberateThinkingState).current_branch = none := hcb
          rw [hs', heq, add_thought_none _ hcb1]
          refine ⟨?_, ?_, hcb, fun b' _ => rfl⟩
          · rw [get_current_history_none hcb]
            exact get_current_history_none (by exact hcb)
          · rw [get_current_history_none hcb]
            have hl : DeliberateThinkingState.get_current_history
                { { s with team := (s.team.process_request request).1 } with
                  thought_history := s.thought_history
                    ++ [ThoughtData.ofRequest request] }
                = s.thought_history ++ [ThoughtData.ofRequest request] :=
              get_current_history_none (by exact hcb)
            rw [hl]
            simp
      | some b =>
          have hc := hwf b hcb
          rcases Option.isSome_iff_exists.mp
            (by rw [← amContainsKey_iff_get_isSome]; exact hc) with ⟨l, hl⟩
          have hcb1 : ({ s with team := (s.team.process_request request).1 }
              : DeliberateThinkingState).current_branch = some b := hcb
          have hl1 : branchesGet
              (DeliberateThinkingState.branches
                { s with team := (s.team.process_request request).1 }) b
              = some l := hl
          have hctx : s.get_current_history = l :=
            get_current_history_some hcb hl
          rw [hs', heq, add_thought_some _ hcb1 hl1]
          have hget : DeliberateThinkingState.get_current_history
              { { s with team := (s.team.process_request request).1 } with
                branches := (branchesInsert
                  (DeliberateThinkingState.branches
                    { s with team := (s.team.process_request request).1 }) b
                  (l ++ [ThoughtData.ofRequest request])) }
              = l ++ [ThoughtData.ofRequest request] :=
            get_current_history_some (by exact hcb)
              (amGet_insert_self _ b _)
          refine ⟨?_, ?_, hcb, ?_⟩
          · rw [hget, hctx]
          · rw [hget, hctx]
            simp
          · intro b' hb'
            have hbb : b' ≠ b := fun hh => hb' (by rw [hh])
            exact amGet_insert_ne _ _ hbb

/-- Witness for C4 (scenario D): after forking branch `"b"` from the empty
session, a plain append call grows the active branch by one record and
leaves the main line and every other branch untouched. -/
theorem C4_sticky_active_context_witness :
    (deliberate_thinking sC4 (appendReq 2)).1.get_current_history
        = sC4.get_current_history ++ [ThoughtData.ofRequest (appendReq 2)] ∧
    (deliberate_thinking sC4 (appendReq 2)).1.get_current_history.length
        = sC4.get_current_history.length + 1 ∧
    (deliberate_thinking sC4 (appendReq 2)).1.current_branch
        = sC4.current_branch ∧
    ∀ b', sC4.current_branch ≠ some b' →
      branchesGet (deliberate_thinking sC4 (appendReq 2)).1.branches b'
        = branchesGet sC4.branches b' :=
  (C4_sticky_active_context sC4 (appendReq 2)
      (deliberate_thinking sC4 (appendReq 2)).1 _
      (reachable_wf (Reachable.step initialState reqC1 Reachable.init))
      rfl).2.2
    ⟨fun hfork => by simp [isForkCall, appendReq, baseRequest] at hfork, rfl⟩

/-! ## TeamState stage lemmas -/

theorem stage_discussion_preserves (request : DeliberateThinkingRequest)
    (acc : TeamState × TeamUpdateOutcome) :
    (stage_discussion request acc).1.pm_summaries = acc.1.pm_summaries ∧
    (stage_discussion request acc).1.backlog = acc.1.backlog ∧
    (stage_discussion request acc).1.active_sprint = acc.1.active_sprint ∧
    (stage_discussion request acc).1.consensus = acc.1.consensus ∧
    (stage_discussion request acc).1.awaiting_user_input
        = acc.1.awaiting_user_input ∧
    (stage_discussion request acc).2.pm_summary = acc.2.pm_summary ∧
    (stage_discussion request acc).2.backlog_changes = acc.2.backlog_changes ∧
    (stage_discussion request acc).2.sprint_plan_updated
        = acc.2.sprint_plan_updated ∧
    (stage_discussion request acc).2.consensus_state = acc.2.consensus_state ∧
    (stage_discussion request acc).2.awaiting_user_input
        = acc.2.awaiting_user_input := by
  unfold stage_discussion
  split <;> exact ⟨rfl, rfl, rfl, rfl, rfl, rfl, rfl, rfl, rfl, rfl⟩

theorem stage_narrative_preserves (request : DeliberateThinkingRequest)
    (acc : TeamState × TeamUpdateOutcome) :
    (stage_narrative request acc).1.backlog = acc.1.backlog ∧
    (stage_narrative request acc).1.active_sprint = acc.1.active_sprint ∧
    (stage_narrative request acc).1.consensus = acc.1.consensus ∧
    (stage_narrative request acc).1.awaiting_user_input
        = acc.1.awaiting_user_input ∧
    (stage_narrative request acc).2.backlog_changes = acc.2.backlog_changes ∧
    (stage_narrative request acc).2.sprint_plan_updated
        = acc.2.sprint_plan_updated ∧
    (stage_narrative request acc).2.consensus_state = acc.2.consensus_state ∧
    (stage_narrative request acc).2.awaiting_user_input
        = acc.2.awaiting_user_input := by
  unfold stage_narrative
  split
  · dsimp only
    split <;> exact ⟨rfl, rfl, rfl, rfl, rfl, rfl, rfl, rfl⟩
  · split
    · dsimp only
      split <;> exact ⟨rfl, rfl, rfl, rfl, rfl, rfl, rfl, rfl⟩
    · exact ⟨rfl, rfl, rfl, rfl, rfl, rfl, rfl, rfl⟩
  · exact ⟨rfl, rfl, rfl, rfl, rfl, rfl, rfl, rfl⟩

theorem stage_sprint_preserves (request : DeliberateThinkingRequest)
    (acc : TeamState × TeamUpdateOutcome) :
    (stage_sprint request acc).1.pm_summaries = acc.1.pm_summaries ∧
    (stage_sprint request acc).1.discussion_log = acc.1.discussion_log ∧
    (stage_sprint request acc).1.backlog = acc.1.backlog ∧
    (stage_sprint request acc).1.consensus = acc.1.consensus ∧
    (stage_sprint request acc).1.awaiting_user_input
        = acc.1.awaiting_user_input ∧
    (stage_sprint request acc).2.pm_summary = acc.2.pm_summary ∧
    (stage_sprint request acc).2.new_discussion_points
        = acc.2.new_discussion_points ∧
    (stage_sprint request acc).2.backlog_changes = acc.2.backlog_changes ∧
    (stage_sprint request acc).2.consensus_state = acc.2.consensus_state ∧
    (stage_sprint request acc).2.awaiting_user_input
        = acc.2.awaiting_user_input := by
  unfold stage_sprint
  split <;> exact ⟨rfl, rfl, rfl, rfl, rfl, rfl, rfl, rfl, rfl, rfl⟩

theorem stage_consensus_preserves (request : DeliberateThinkingRequest)
    (acc : TeamState × TeamUpdateOutcome) :
    (stage_consensus request acc).1.pm_summaries = acc.1.pm_summaries ∧
    (stage_consensus request acc).1.discussion_log = acc.1.discussion_log ∧
    (stage_consensus request acc).1.backlog = acc.1.backlog ∧
    (stage_consensus request acc).1.active_sprint = acc.1.active_sprint ∧
    (stage_consensus request acc).1.awaiting_user_input
        = acc.1.awaiting_user_input ∧
    (stage_consensus request acc).2.pm_summary = acc.2.pm_summary ∧
    (stage_consensus request acc).2.new_discussion_points
        = acc.2.new_discussion_points ∧
    (stage_consensus request acc).2.backlog_changes = acc.2.backlog_changes ∧
    (stage_consensus request acc).2.sprint_plan_updated
        = acc.2.sprint_plan_updated ∧
    (stage_consensus request acc).2.awaiting_user_input
        = acc.2.awaiting_user_input := by
  unfold stage_consensus
  split <;> exact ⟨rfl, rfl, rfl, rfl, rfl, rfl, rfl, rfl, rfl, rfl⟩

theorem stage_waiting_preserves (request : DeliberateThinkingRequest)
    (acc : TeamState × TeamUpdateOutcome) :
    (stage_waiting request acc).1.pm_summaries = acc.1.pm_summaries ∧
    (stage_waiting request acc).1.discussion_log = acc.1.discussion_log ∧
    (stage_waiting request acc).1.backlog = acc.1.backlog ∧
    (stage_waiting request acc).1.active_sprint = acc.1.active_sprint ∧
    (stage_waiting request acc).1.consensus = acc.1.consensus ∧
    (stage_waiting request acc).2.pm_summary = acc.2.pm_summary ∧
    (stage_waiting request acc).2.new_discussion_points
        = acc.2.new_discussion_points ∧
    (stage_waiting request acc).2.backlog_changes = acc.2.backlog_changes ∧
    (stage_waiting request acc).2.sprint_plan_updated
        = acc.2.sprint_plan_updated ∧
    (stage_waiting request acc).2.consensus_state = acc.2.consensus_state := by
  unfold stage_waiting
  split <;> exact ⟨rfl, rfl, rfl, rfl, rfl, rfl, rfl, rfl, rfl, rfl⟩

/-- The story loop only rewrites the backlog and the change list. -/
theorem foldStories_shape (stories : List BacklogItem)
    (acc : TeamState × TeamUpdateOutcome) :
    ∃ B C, stories.foldl applyStory acc
      = ({ acc.1 with backlog := B }, { acc.2 with backlog_changes := C }) := by
  induction stories generalizing acc with
  | nil => exact ⟨acc.1.backlog, acc.2.backlog_changes, rfl⟩
  | cons st rest ih =>
      rcases ih (applyStory acc st) with ⟨B, C, h⟩
      exact ⟨B, C, h⟩

/-- The removal loop only rewrites the backlog and the change list. -/
theorem foldRemovals_shape (ids : List String)
    (acc : TeamState × TeamUpdateOutcome) :
    ∃ B C, ids.foldl applyRemoval acc
      = ({ acc.1 with backlog := B }, { acc.2 with backlog_changes := C }) := by
  induction ids generalizing acc with
  | nil => exact ⟨acc.1.backlog, acc.2.backlog_changes, rfl⟩
  | cons i rest ih =>
      rcases ih (applyRemoval acc i) with ⟨B, C, h⟩
      have h0 : ∃ B0 C0, applyRemoval acc i
          = ({ acc.1 with backlog := B0 },
             { acc.2 with backlog_changes := C0 }) := by
        unfold applyRemoval
        cases amGet acc.1.backlog i with
        | none => exact ⟨acc.1.backlog, acc.2.backlog_changes, rfl⟩
        | some removed => exact ⟨_, _, rfl⟩
      rcases h0 with ⟨B0, C0, h0⟩
      refine ⟨B, C, ?_⟩
      have hfold : (i :: rest).foldl applyRemoval acc
          = rest.foldl applyRemoval (applyRemoval acc i) := rfl
      rw [hfold, h0]
      rw [h0] at h
      exact h

/-- Both backlog loops combined, as a shape statement. -/
theorem foldBoth_shape (stories : List BacklogItem) (ids : List String)
    (acc : TeamState × TeamUpdateOutcome) :
    ∃ B C, ids.foldl applyRemoval (stories.foldl applyStory acc)
      = ({ acc.1 with backlog := B }, { acc.2 with backlog_changes := C }) := by
  rcases foldStories_shape stories acc with ⟨B1, C1, h1⟩
  rcases foldRemovals_shape ids (stories.foldl applyStory acc) with ⟨B2, C2, h2⟩
  rw [h1] at h2
  exact ⟨B2, C2, by rw [h1]; exact h2⟩

/-- C8.  Consensus replacement: a supplied consensus update fully replaces
the stored ready flag, blocker list and notes (an empty blocker list is an
explicit clear), and is reported in the outcome; with no update the stored
consensus is untouched. -/
theorem C8_consensus_replacement (ts : TeamState)
    (request : DeliberateThinkingRequest) :
    (∀ u, request.consensus_update = some u →
      (ts.process_request request).1.consensus
          = { ready_for_code_changes := u.ready_for_code_changes,
              blockers := u.blockers, notes := u.notes } ∧
      (ts.process_request request).2.consensus_state
          = some { ready_for_code_changes := u.ready_for_code_changes,
                   blockers := u.blockers, notes := u.notes }) ∧
    (request.consensus_update = none →
      (ts.process_request request).1.consensus = ts.consensus ∧
      (ts.process_request request).2.consensus_state = none) := by
  unfold TeamState.process_request
  rcases foldBoth_shape request.backlog_stories request.remove_story_ids
    (stage_narrative request
      (stage_discussion request (ts, TeamUpdateOutcome.default))) with
    ⟨B, C, hshape⟩
  constructor
  · intro u hu
    have hcons : stage_consensus request
        (stage_sprint request
          (request.remove_story_ids.foldl applyRemoval
            (request.backlog_stories.foldl applyStory
              (stage_narrative request
                (stage_discussion request (ts, TeamUpdateOutcome.default))))))
        = ({ (stage_sprint request
              (request.remove_story_ids.foldl applyRemoval
                (request.backlog_stories.foldl applyStory
                  (stage_narrative request
                    (stage_discussion request
                      (ts, TeamUpdateOutcome.default)))))).1 with
            consensus := { ready_for_code_changes := u.ready_for_code_changes,
                           blockers := u.blockers, notes := u.notes } },
           { (stage_sprint request
              (request.remove_story_ids.foldl applyRemoval
                (request.backlog_stories.foldl applyStory
                  (stage_narrative request
                    (stage_discussion request
                      (ts, TeamUpdateOutcome.default)))))).2 with
            consensus_state :=
              some { ready_for_code_changes := u.ready_for_code_changes,
                     blockers := u.blockers, notes := u.notes } }) := by
      unfold stage_consensus
      rw [hu]
    constructor
    · rw [(stage_waiting_preserves request _).2.2.2.2.1, hcons]
    · rw [(stage_waiting_preserves request _).2.2.2.2.2.2.2.2.2, hcons]
  · intro hu
    have hcons : stage_consensus request
        (stage_sprint request
          (request.remove_story_ids.foldl applyRemoval
            (request.backlog_stories.foldl applyStory
              (stage_narrative request
                (stage_discussion request (ts, TeamUpdateOutcome.default))))))
        = stage_sprint request
            (request.remove_story_ids.foldl applyRemoval
              (request.backlog_stories.foldl applyStory
                (stage_narrative request
                  (stage_discussion request (ts, TeamUpdateOutcome.default))))) := by
      unfold stage_consensus
      rw [hu]
    constructor
    · rw [(stage_waiting_preserves request _).2.2.2.2.1, hcons,
        (stage_sprint_preserves request _).2.2.2.1, hshape]
      have h2 := (stage_narrative_preserves request
        (stage_discussion request (ts, TeamUpdateOutcome.default))).2.2.1
      have h1 := (stage_discussion_preserves request
        (ts, TeamUpdateOutcome.default)).2.2.2.1
      exact h2.trans h1
    · rw [(stage_waiting_preserves request _).2.2.2.2.2.2.2.2.2, hcons,
        (stage_sprint_preserves request _).2.2.2.2.2.2.2.2.1, hshape]
      have h2 := (stage_narrative_preserves request
        (stage_discussion request (ts, TeamUpdateOutcome.default))).2.2.2.2.2.2.1
      have h1 := (stage_discussion_preserves request
        (ts, TeamUpdateOutcome.default)).2.2.2.2.2.2.2.2.1
      exact h2.trans h1

/-- Witness for C8: an update with an empty blocker list clears previously
stored blockers and replaces the notes and ready flag. -/
theorem C8_consensus_replacement_witness :
    (tsC8.process_request reqC8).1.consensus
        = { ready_for_code_changes := true, blockers := [], notes := some "go" } ∧
    (tsC8.process_request reqC8).2.consensus_state
        = some { ready_for_code_changes := true, blockers := [],
                 notes := some "go" } :=
  (C8_consensus_replacement tsC8 reqC8).1
    { ready_for_code_changes := true, blockers := [], notes := some "go" } rfl

/-! ## Narrative promotion -/

theorem stage_discussion_empty (request : DeliberateThinkingRequest)
    (acc : TeamState × TeamUpdateOutcome)
    (h : request.discussion_points = []) :
    stage_discussion request acc = acc := by
  unfold stage_discussion
  rw [if_pos h]

theorem stage_discussion_nonempty (request : DeliberateThinkingRequest)
    (acc : TeamState × TeamUpdateOutcome)
    (h : request.discussion_points ≠ []) :
    stage_discussion request acc
      = ({ acc.1 with discussion_log :=
             acc.1.discussion_log ++ request.discussion_points },
         { acc.2 with new_discussion_points :=
             acc.2.new_discussion_points ++ request.discussion_points }) := by
  unfold stage_discussion
  rw [if_neg h]

theorem stage_narrative_pm (request : DeliberateThinkingRequest)
    (acc : TeamState × TeamUpdateOutcome)
    (hrole : request.role = some TeamRole.ProjectManager)
    (ht : strTrim request.thought ≠ "") :
    stage_narrative request acc
      = ({ acc.1 with pm_summaries :=
             acc.1.pm_summaries ++ [strTrim request.thought] },
         { acc.2 with pm_summary := some (strTrim request.thought) }) := by
  unfold stage_narrative
  rw [hrole]
  dsimp only
  rw [if_neg ht]

theorem stage_narrative_other (request : DeliberateThinkingRequest)
    (acc : TeamState × TeamUpdateOutcome) (role : TeamRole)
    (hrole : request.role = some role)
    (hpm : role ≠ TeamRole.ProjectManager)
    (hnd : acc.2.new_discussion_points = [])
    (ht : strTrim request.thought ≠ "") :
    stage_narrative request acc
      = ({ acc.1 with discussion_log := acc.1.discussion_log
             ++ [{ role := role, detail := strTrim request.thought }] },
         { acc.2 with new_discussion_points := acc.2.new_discussion_points
             ++ [{ role := role, detail := strTrim request.thought }] }) := by
  unfold stage_narrative
  cases role with
  | ProjectManager => exact absurd rfl hpm
  | PragmaticProgrammer =>
      rw [hrole]
      dsimp only
      rw [if_pos hnd, if_neg ht]
  | ProductVisionary =>
      rw [hrole]
      dsimp only
      rw [if_pos hnd, if_neg ht]

theorem stage_narrative_other_skip (request : DeliberateThinkingRequest)
    (acc : TeamState × TeamUpdateOutcome) (role : TeamRole)
    (hrole : request.role = some role)
    (hpm : role ≠ TeamRole.ProjectManager)
    (hnd : acc.2.new_discussion_points ≠ []) :
    stage_narrative request acc = acc := by
  unfold stage_narrative
  cases role with
  | ProjectManager => exact absurd rfl hpm
  | PragmaticProgrammer =>
      rw [hrole]
      dsimp only
      rw [if_neg hnd]
  | ProductVisionary =>
      rw [hrole]
      dsimp only
      rw [if_neg hnd]

/-- The stages after narrative promotion do not touch the summaries, the
discussion log, or their outcome fields. -/
theorem postStages_preserves (request : DeliberateThinkingRequest)
    (acc : TeamState × TeamUpdateOutcome) :
    (stage_waiting request (stage_consensus request (stage_sprint request
        (request.remove_story_ids.foldl applyRemoval
          (request.backlog_stories.foldl applyStory acc))))).1.pm_summaries
      = acc.1.pm_summaries ∧
    (stage_waiting request (stage_consensus request (stage_sprint request
        (request.remove_story_ids.foldl applyRemoval
          (request.backlog_stories.foldl applyStory acc))))).1.discussion_log
      = acc.1.discussion_log ∧
    (stage_waiting request (stage_consensus request (stage_sprint request
        (request.remove_story_ids.foldl applyRemoval
          (request.backlog_stories.foldl applyStory acc))))).2.pm_summary
      = acc.2.pm_summary ∧
    (stage_waiting request (stage_consensus request (stage_sprint request
        (request.remove_story_ids.foldl applyRemoval
          (request.backlog_stories.foldl
            applyStory acc))))).2.new_discussion_points
      = acc.2.new_discussion_points := by
  rcases foldBoth_shape request.backlog_stories request.remove_story_ids acc
    with ⟨B, C, h⟩
  refine ⟨?_, ?_, ?_, ?_⟩
  · rw [(stage_waiting_preserves request _).1,
      (stage_consensus_preserves request _).1,
      (stage_sprint_preserves request _).1, h]
  · rw [(stage_waiting_preserves request _).2.1,
      (stage_consensus_preserves request _).2.1,
      (stage_sprint_preserves request _).2.1, h]
  · rw [(stage_waiting_preserves request _).2.2.2.2.2.1,
      (stage_consensus_preserves request _).2.2.2.2.2.1,
      (stage_sprint_preserves request _).2.2.2.2.2.1, h]
  · rw [(stage_waiting_preserves request _).2.2.2.2.2.2.1,
      (stage_consensus_preserves request _).2.2.2.2.2.2.1,
      (stage_sprint_preserves request _).2.2.2.2.2.2.1, h]

/-- A delta summary is surfaced verbatim as the report's `pmSummary`. -/
theorem generate_report_pm_summary_of_some (team : TeamState)
    (request : DeliberateThinkingRequest) (outcome : TeamUpdateOutcome)
    {s : String} (h : outcome.pm_summary = some s) :
    (team.generate_report request outcome).pm_summary = some s := by
  unfold TeamState.generate_report
  dsimp only
  rw [h]

/-- The report copies this call's new discussion points verbatim. -/
theorem generate_report_new_points (team : TeamState)
    (request : DeliberateThinkingRequest) (outcome : TeamUpdateOutcome) :
    (team.generate_report request outcome).new_discussion_points
      = outcome.new_discussion_points := rfl

/-- C9.  Narrative promotion: a project-manager call with a non-blank body
records the trimmed body as the latest summary and reports it as the
pmSummary; any other role with no explicit discussion points and a
non-blank body yields exactly one derived discussion point (role, body)
appended to the log and reported as new; explicit discussion points
suppress the derivation. -/
theorem C9_narrative_promotion (ts : TeamState)
    (request : DeliberateThinkingRequest) :
    (request.role = some TeamRole.ProjectManager →
      strTrim request.thought ≠ "" →
      (ts.process_request request).1.pm_summaries
          = ts.pm_summaries ++ [strTrim request.thought] ∧
      (ts.process_request request).2.pm_summary
          = some (strTrim request.thought) ∧
      ((ts.process_request request).1.generate_report request
          (ts.process_request request).2).pm_summary
        = some (strTrim request.thought)) ∧
    (∀ role, request.role = some role → role ≠ TeamRole.ProjectManager →
      request.discussion_points = [] → strTrim request.thought ≠ "" →
      (ts.process_request request).2.new_discussion_points
          = [{ role := role, detail := strTrim request.thought }] ∧
      (ts.process_request request).1.discussion_log
          = ts.discussion_log
              ++ [{ role := role, detail := strTrim request.thought }] ∧
      ((ts.process_request request).1.generate_report request
          (ts.process_request request).2).new_discussion_points
        = [{ role := role, detail := strTrim request.thought }]) ∧
    (∀ role, request.role = some role → role ≠ TeamRole.ProjectManager →
      request.discussion_points ≠ [] →
      (ts.process_request request).2.new_discussion_points
        = request.discussion_points) := by
  have hpost := postStages_preserves request
    (stage_narrative request
      (stage_discussion request (ts, TeamUpdateOutcome.default)))
  refine ⟨?_, ?_, ?_⟩
  · intro hrole ht
    have hnarr := stage_narrative_pm request
      (stage_discussion request (ts, TeamUpdateOutcome.default)) hrole ht
    have h2 : (ts.process_request request).2.pm_summary
        = some (strTrim request.thought) := by
      unfold TeamState.process_request
      rw [hpost.2.2.1, hnarr]
    refine ⟨?_, h2, generate_report_pm_summary_of_some _ request _ h2⟩
    unfold TeamState.process_request
    rw [hpost.1, hnarr]
    have hd := (stage_discussion_preserves request
      (ts, TeamUpdateOutcome.default)).1
    dsimp only
    rw [hd]
  · intro role hrole hpm hdp ht
    have hA1 : stage_discussion request (ts, TeamUpdateOutcome.default)
        = (ts, TeamUpdateOutcome.default) :=
      stage_discussion_empty request _ hdp
    have hnarr := stage_narrative_other request
      (stage_discussion request (ts, TeamUpdateOutcome.default)) role hrole hpm
      (by rw [hA1]; rfl) ht
    have h1 : (ts.process_request request).2.new_discussion_points
        = [{ role := role, detail := strTrim request.thought }] := by
      unfold TeamState.process_request
      rw [hpost.2.2.2, hnarr]
      dsimp only
      rw [hA1]
      exact rfl
    refine ⟨h1, ?_, ?_⟩
    · unfold TeamState.process_request
      rw [hpost.2.1, hnarr]
      dsimp only
      rw [hA1]
    · rw [generate_report_new_points]
      exact h1
  · intro role hrole hpm hdp
    have hA1 := stage_discussion_nonempty request
      (ts, TeamUpdateOutcome.default) hdp
    have hnd : (stage_discussion request
        (ts, TeamUpdateOutcome.default)).2.new_discussion_points
        ≠ [] := by
      rw [hA1]
      dsimp only
      exact hdp
    have hnarr := stage_narrative_other_skip request
      (stage_discussion request (ts, TeamUpdateOutcome.default)) role hrole hpm
      hnd
    unfold TeamState.process_request
    rw [hpost.2.2.2, hnarr, hA1]
    exact rfl

/-! ## Backlog merge -/

theorem amInsert_eq_append_of_not_contains {α : Type}
    {m : List (String × α)} {k : String} (v : α)
    (h : amContainsKey m k = false) : amInsert m k v = m ++ [(k, v)] := by
  induction m with
  | nil => rfl
  | cons p rest ih =>
      have hsplit : (p.1 == k) = false ∧ amContainsKey rest k = false := by
        have hcons : (p.1 == k || amContainsKey rest k) = false := h
        exact Bool.or_eq_false_iff.mp hcons
      have hp : ¬ p.1 = k := by simpa using hsplit.1
      simp [amInsert, hp, ih hsplit.2]

theorem amInsert_append_self {α : Type} {m : List (String × α)} {k : String}
    (v w : α) (h : amContainsKey m k = false) :
    amInsert (m ++ [(k, v)]) k w = m ++ [(k, w)] := by
  induction m with
  | nil => simp [amInsert]
  | cons p rest ih =>
      have hsplit : (p.1 == k) = false ∧ amContainsKey rest k = false := by
        have hcons : (p.1 == k || amContainsKey rest k) = false := h
        exact Bool.or_eq_false_iff.mp hcons
      have hp : ¬ p.1 = k := by simpa using hsplit.1
      simp [amInsert, hp, ih hsplit.2]

/-- `handle_branching` never touches the team state. -/
theorem handle_branching_team (s : DeliberateThinkingState) (bf : Nat)
    (bid : String) (td : ThoughtData) :
    (s.handle_branching bf bid td).team = s.team := by
  cases hc : branchesContainsKey s.branches bid with
  | false => rw [handle_branching_fresh td hc]
  | true =>
      rcases Option.isSome_iff_exists.mp
        (by rw [← amContainsKey_iff_get_isSome]; exact hc) with ⟨l, hl⟩
      rw [handle_branching_existing td hl]

/-- `handle_revision` never touches the team state. -/
theorem handle_revision_team (s : DeliberateThinkingState) (r : Nat)
    (td : ThoughtData) : (s.handle_revision r td).team = s.team := by
  cases hcb : s.current_branch with
  | none => rw [handle_revision_none td hcb]
  | some bid =>
      cases hg : branchesGet s.branches bid with
      | none =>
          have hid : s.handle_revision r td = s := by
            simp only [DeliberateThinkingState.handle_revision, hcb, hg]
          rw [hid]
      | some l => rw [handle_revision_some td hcb hg]

/-- `add_thought` never touches the team state. -/
theorem add_thought_team (s : DeliberateThinkingState) (td : ThoughtData) :
    (s.add_thought td).team = s.team := by
  cases hcb : s.current_branch with
  | none => rw [add_thought_none td hcb]
  | some bid =>
      cases hg : branchesGet s.branches bid with
      | none =>
          have hid : s.add_thought td = s := by
            simp only [DeliberateThinkingState.add_thought, hcb, hg]
          rw [hid]
      | some l => rw [add_thought_some td hcb hg]

theorem foldStories_nodup (stories : List BacklogItem)
    (acc : TeamState × TeamUpdateOutcome) (h : keysNodup acc.1.backlog) :
    keysNodup ((stories.foldl applyStory acc).1.backlog) := by
  induction stories generalizing acc with
  | nil => exact h
  | cons st rest ih => exact ih (applyStory acc st) (keysNodup_insert st.id st h)

theorem foldRemovals_nodup (ids : List String)
    (acc : TeamState × TeamUpdateOutcome) (h : keysNodup acc.1.backlog) :
    keysNodup ((ids.foldl applyRemoval acc).1.backlog) := by
  induction ids generalizing acc with
  | nil => exact h
  | cons i rest ih =>
      refine ih (applyRemoval acc i) ?_
      unfold applyRemoval
      cases amGet acc.1.backlog i with
      | none => exact h
      | some removed => exact keysNodup_erase i h

/-- A full merge preserves backlog key uniqueness. -/
theorem process_request_keysNodup (ts : TeamState)
    (request : DeliberateThinkingRequest) (h : keysNodup ts.backlog) :
    keysNodup (ts.process_request request).1.backlog := by
  unfold TeamState.process_request
  rw [(stage_waiting_preserves request _).2.2.1,
    (stage_consensus_preserves request _).2.2.1,
    (stage_sprint_preserves request _).2.2.1]
  refine foldRemovals_nodup _ _ (foldStories_nodup _ _ ?_)
  rw [(stage_narrative_preserves request _).1,
    (stage_discussion_preserves request _).2.1]
  exact h

/-- Every reachable session has a duplicate-free backlog. -/
theorem reachable_team_nodup {s : DeliberateThinkingState}
    (h : Reachable s) : keysNodup s.team.backlog := by
  induction h with
  | init => exact List.nodup_nil
  | step s request ih1 ih =>
      cases hv : request.validate with
      | error e =>
          have hid : (deliberate_thinking s request).1 = s := by
            unfold deliberate_thinking
            rw [hv]
          rw [hid]
          exact ih
      | ok u =>
          have hfst : (deliberate_thinking s request).1
              = dispatchThought
                  { s with team := (s.team.process_request request).1 } request
                  (ThoughtData.ofRequest request) := by
            unfold deliberate_thinking
            rw [hv]
          have hteam : (deliberate_thinking s request).1.team
              = (s.team.process_request request).1 := by
            rw [hfst]
            rcases dispatch_cases
                { s with team := (s.team.process_request request).1 } request
                (ThoughtData.ofRequest request) with
              ⟨bf, bid, _, _, heq⟩ | ⟨r, _, _, heq⟩ | ⟨_, _, heq⟩
            · rw [heq, handle_branching_team]
            · rw [heq, handle_revision_team]
            · rw [heq, add_thought_team]
          rw [hteam]
          exact process_request_keysNodup s.team request ih

/-- C6.  Backlog merge semantics: items are upserted by id (`Added` when
new and appended, `Updated` when existing and overwritten in place), the
backlog of every reachable session never holds two items with one id,
submitting an id twice in one call leaves a single entry whose second delta
is `Updated`, and removing an absent id is a complete no-op with no delta
entry while removing a present id deletes it with a `Removed` delta. -/
theorem C6_backlog_merge (ts : TeamState)
    (request : DeliberateThinkingRequest) (h : keysNodup ts.backlog) :
    keysNodup (ts.process_request request).1.backlog ∧
    (∀ s, Reachable s → keysNodup s.team.backlog) ∧
    (∀ (acc : TeamState × TeamUpdateOutcome) (st : BacklogItem),
      amContainsKey acc.1.backlog st.id = false →
      (applyStory acc st).1.backlog = acc.1.backlog ++ [(st.id, st)] ∧
      (applyStory acc st).2.backlog_changes
        = acc.2.backlog_changes
            ++ [{ change_type := BacklogChangeType.Added, item := st }]) ∧
    (∀ (acc : TeamState × TeamUpdateOutcome) (st : BacklogItem),
      amContainsKey acc.1.backlog st.id = true →
      ((applyStory acc st).1.backlog).map Prod.fst
          = acc.1.backlog.map Prod.fst ∧
      amGet (applyStory acc st).1.backlog st.id = some st ∧
      (∀ k, k ≠ st.id →
        amGet (applyStory acc st).1.backlog k
          = amGet acc.1.backlog k) ∧
      (applyStory acc st).2.backlog_changes
        = acc.2.backlog_changes
            ++ [{ change_type := BacklogChangeType.Updated, item := st }]) ∧
    (∀ (acc : TeamState × TeamUpdateOutcome) (st st' : BacklogItem),
      st'.id = st.id → amContainsKey acc.1.backlog st.id = false →
      ([st, st'].foldl applyStory acc).1.backlog
          = acc.1.backlog ++ [(st.id, st')] ∧
      ([st, st'].foldl applyStory acc).2.backlog_changes
        = acc.2.backlog_changes
            ++ [{ change_type := BacklogChangeType.Added, item := st },
                { change_type := BacklogChangeType.Updated, item := st' }]) ∧
    (∀ (acc : TeamState × TeamUpdateOutcome) (i : String),
      amGet acc.1.backlog i = none → applyRemoval acc i = acc) ∧
    (∀ (acc : TeamState × TeamUpdateOutcome) (i : String) (v : BacklogItem),
      amGet acc.1.backlog i = some v →
      (applyRemoval acc i).1.backlog = amErase acc.1.backlog i ∧
      (applyRemoval acc i).2.backlog_changes
        = acc.2.backlog_changes
            ++ [{ change_type := BacklogChangeType.Removed, item := v }]) := by
  have applyStory_fresh : ∀ (acc : TeamState × TeamUpdateOutcome)
      (st : BacklogItem), amContainsKey acc.1.backlog st.id = false →
      applyStory acc st
        = ({ acc.1 with backlog := acc.1.backlog ++ [(st.id, st)] },
           { acc.2 with backlog_changes := acc.2.backlog_changes
               ++ [{ change_type := BacklogChangeType.Added, item := st }] }) := by
    intro acc st hc
    unfold applyStory
    rw [hc, amInsert_eq_append_of_not_contains st hc]
    exact rfl
  have applyStory_existing : ∀ (acc : TeamState × TeamUpdateOutcome)
      (st : BacklogItem), amContainsKey acc.1.backlog st.id = true →
      applyStory acc st
        = ({ acc.1 with backlog := amInsert acc.1.backlog st.id st },
           { acc.2 with backlog_changes := acc.2.backlog_changes
               ++ [{ change_type := BacklogChangeType.Updated, item := st }] }) := by
    intro acc st hc
    unfold applyStory
    rw [hc]
    exact rfl
  refine ⟨process_request_keysNodup ts request h,
    fun s hs => reachable_team_nodup hs, ?_, ?_, ?_, ?_, ?_⟩
  · intro acc st hc
    rw [applyStory_fresh acc st hc]
    exact ⟨rfl, rfl⟩
  · intro acc st hc
    rw [applyStory_existing acc st hc]
    dsimp only
    exact ⟨amInsert_keys_of_contains st hc, amGet_insert_self _ _ _,
      fun k hk => amGet_insert_ne _ _ hk, rfl⟩
  · intro acc st st' hid hc
    have hfold : [st, st'].foldl applyStory acc
        = applyStory (applyStory acc st) st' := rfl
    have hacc1 := applyStory_fresh acc st hc
    have hc2 : amContainsKey (applyStory acc st).1.backlog st'.id
        = true := by
      rw [hacc1]
      dsimp only
      rw [hid, ← amInsert_eq_append_of_not_contains st hc]
      exact amContainsKey_insert_self _ _ _
    have hacc2 := applyStory_existing (applyStory acc st) st' hc2
    constructor
    · rw [hfold, hacc2]
      dsimp only
      rw [hacc1]
      dsimp only
      rw [hid, amInsert_append_self st st' hc]
    · rw [hfold, hacc2]
      dsimp only
      rw [hacc1]
      dsimp only
      rw [List.append_assoc]
      rfl
  · intro acc i hnone
    unfold applyRemoval
    rw [hnone]
  · intro acc i v hsome
    unfold applyRemoval
    rw [hsome]
    exact ⟨rfl, rfl⟩

/-- Witness for C6: submitting story id "A" twice in one call leaves one
entry holding the second version, tagged Added then Updated. -/
theorem C6_backlog_merge_witness :
    ([stC6, stC6b].foldl applyStory
        (TeamState.default, TeamUpdateOutcome.default)).1.backlog
        = TeamState.default.backlog ++ [(stC6.id, stC6b)] ∧
    ([stC6, stC6b].foldl applyStory
        (TeamState.default, TeamUpdateOutcome.default)).2.backlog_changes
        = TeamUpdateOutcome.default.backlog_changes
            ++ [{ change_type := BacklogChangeType.Added, item := stC6 },
                { change_type := BacklogChangeType.Updated, item := stC6b }] :=
  (C6_backlog_merge TeamState.default baseRequest List.nodup_nil).2.2.2.2.1
    (TeamState.default, TeamUpdateOutcome.default) stC6 stC6b rfl rfl

/-! ## Backlog snapshot ordering -/

theorem natCompare_gt_iff (x y : Nat) : natCompare x y = Ordering.gt ↔ y < x := by
  unfold natCompare
  by_cases h1 : x < y
  · rw [if_pos h1]
    constructor
    · intro h
      exact Ordering.noConfusion h
    · intro h
      exact absurd h (by omega)
  · rw [if_neg h1]
    by_cases h2 : y < x
    · rw [if_pos h2]
      exact ⟨fun _ => h2, fun _ => rfl⟩
    · rw [if_neg h2]
      constructor
      · intro h
        exact Ordering.noConfusion h
      · intro h
        exact absurd h h2

theorem natCompare_eq_iff (x y : Nat) : natCompare x y = Ordering.eq ↔ x = y := by
  unfold natCompare
  by_cases h1 : x < y
  · rw [if_pos h1]
    constructor
    · intro h
      exact Ordering.noConfusion h
    · intro h
      exact absurd h (by omega)
  · rw [if_neg h1]
    by_cases h2 : y < x
    · rw [if_pos h2]
      constructor
      · intro h
        exact Ordering.noConfusion h
      · intro h
        exact absurd h (by omega)
    · rw [if_neg h2]
      exact ⟨fun _ => by omega, fun _ => rfl⟩

theorem strCompare_gt_iff (x y : String) :
    strCompare x y = Ordering.gt ↔ y < x := by
  unfold strCompare
  by_cases h1 : x < y
  · rw [if_pos h1]
    constructor
    · intro h
      exact Ordering.noConfusion h
    · intro h2
      exact absurd h2 (lt_asymm h1)
  · rw [if_neg h1]
    by_cases h2 : y < x
    · rw [if_pos h2]
      exact ⟨fun _ => h2, fun _ => rfl⟩
    · rw [if_neg h2]
      constructor
      · intro h
        exact Ordering.noConfusion h
      · intro h
        exact absurd h h2

theorem strCompare_eq_iff (x y : String) :
    strCompare x y = Ordering.eq ↔ x = y := by
  unfold strCompare
  by_cases h1 : x < y
  · rw [if_pos h1]
    constructor
    · intro h
      exact Ordering.noConfusion h
    · intro h
      subst h
      exact absurd h1 (lt_irrefl x)
  · rw [if_neg h1]
    by_cases h2 : y < x
    · rw [if_pos h2]
      constructor
      · intro h
        exact Ordering.noConfusion h
      · intro h
        subst h
        exact absurd h2 (lt_irrefl x)
    · rw [if_neg h2]
      exact ⟨fun _ => le_antisymm (le_of_not_lt h2) (le_of_not_lt h1),
        fun _ => rfl⟩

theorem ordering_then_gt (a b : Ordering) :
    a.then b = Ordering.gt ↔
      (a = Ordering.gt ∨ (a = Ordering.eq ∧ b = Ordering.gt)) := by
  cases a <;> simp [Ordering.then]

theorem ordering_then_eq (a b : Ordering) :
    a.then b = Ordering.eq ↔ (a = Ordering.eq ∧ b = Ordering.eq) := by
  cases a <;> simp [Ordering.then]

/-- The comparator's strict `gt` cases, written out lexicographically. -/
theorem cmpItem_gt_iff (a b : BacklogItem) :
    cmpItem a b = Ordering.gt ↔
      (b.priority.rank < a.priority.rank ∨
        (a.priority.rank = b.priority.rank ∧
          (b.status.rank < a.status.rank ∨
            (a.status.rank = b.status.rank ∧ b.id < a.id)))) := by
  unfold cmpItem
  rw [ordering_then_gt, ordering_then_gt, ordering_then_eq, natCompare_gt_iff,
    natCompare_eq_iff, natCompare_gt_iff, natCompare_eq_iff, strCompare_gt_iff]
  tauto

/-- The sortedness relation is exactly the claim's total order. -/
theorem backlogLe_iff (a b : BacklogItem) :
    backlogLe a b ↔ backlogClaimOrder a b := by
  unfold backlogLe backlogClaimOrder
  simp only [Ne, cmpItem_gt_iff]
  constructor
  · intro h
    rcases Nat.lt_trichotomy a.priority.rank b.priority.rank with h1 | h1 | h1
    · exact Or.inl h1
    · refine Or.inr ⟨h1, ?_⟩
      rcases Nat.lt_trichotomy a.status.rank b.status.rank with h2 | h2 | h2
      · exact Or.inl h2
      · refine Or.inr ⟨h2, ?_⟩
        by_contra hid
        exact h (Or.inr ⟨h1, Or.inr ⟨h2, lt_of_not_le hid⟩⟩)
      · exact absurd (Or.inr ⟨h1, Or.inl h2⟩) h
    · exact absurd (Or.inl h1) h
  · intro h hgt
    rcases hgt with h1 | ⟨h1, h2⟩
    · rcases h with h3 | ⟨h3, _⟩ <;> omega
    · rcases h2 with h2 | ⟨h2, h3⟩
      · rcases h with h4 | ⟨h4, h5⟩
        · omega
        · rcases h5 with h5 | ⟨h5, _⟩ <;> omega
      · rcases h with h4 | ⟨h4, h5⟩
        · omega
        · rcases h5 with h5 | ⟨h5, h6⟩
          · omega
          · exact absurd h3 (not_lt_of_le h6)

instance : IsTotal BacklogItem backlogLe :=
  ⟨fun a b => by
    rw [backlogLe_iff, backlogLe_iff]
    unfold backlogClaimOrder
    rcases Nat.lt_trichotomy a.priority.rank b.priority.rank with h | h | h
    · exact Or.inl (Or.inl h)
    · rcases Nat.lt_trichotomy a.status.rank b.status.rank with h2 | h2 | h2
      · exact Or.inl (Or.inr ⟨h, Or.inl h2⟩)
      · rcases le_total a.id b.id with h3 | h3
        · exact Or.inl (Or.inr ⟨h, Or.inr ⟨h2, h3⟩⟩)
        · exact Or.inr (Or.inr ⟨h.symm, Or.inr ⟨h2.symm, h3⟩⟩)
      · exact Or.inr (Or.inr ⟨h.symm, Or.inl h2⟩)
    · exact Or.inr (Or.inl h)⟩

instance : IsTrans BacklogItem backlogLe :=
  ⟨fun a b c hab hbc => by
    rw [backlogLe_iff] at hab hbc ⊢
    unfold backlogClaimOrder at hab hbc ⊢
    rcases hab with h1 | ⟨h1, h2⟩ <;> rcases hbc with h3 | ⟨h3, h4⟩
    · exact Or.inl (by omega)
    · exact Or.inl (by omega)
    · exact Or.inl (by omega)
    · refine Or.inr ⟨by omega, ?_⟩
      rcases h2 with h2 | ⟨h2, h5⟩ <;> rcases h4 with h4 | ⟨h4, h6⟩
      · exact Or.inl (by omega)
      · exact Or.inl (by omega)
      · exact Or.inl (by omega)
      · exact Or.inr ⟨by omega, le_trans h5 h6⟩⟩

/-- C7.  Backlog snapshot completeness and ordering: the snapshot placed in
the report is always `ordered_backlog`, which is a permutation of the whole
backlog's values (never just deltas or a top-3) and is sorted by priority
rank, then status rank, then id ascending. -/
theorem C7_snapshot_ordering (ts : TeamState)
    (request : DeliberateThinkingRequest) (outcome : TeamUpdateOutcome) :
    (ts.generate_report request outcome).backlog_snapshot
        = ts.ordered_backlog ∧
    (ts.ordered_backlog).Perm (ts.backlog.map Prod.snd) ∧
    List.Pairwise backlogClaimOrder ts.ordered_backlog := by
  refine ⟨rfl, ?_, ?_⟩
  · exact List.perm_insertionSort backlogLe (ts.backlog.map Prod.snd)
  · exact (List.sorted_insertionSort backlogLe (ts.backlog.map Prod.snd)).imp
      (fun h => (backlogLe_iff _ _).mp h)

/-- Witness for C9 (scenario A): thought "kickoff" with the
project-manager role yields `pmSummary = "kickoff"` in the report. -/
theorem C9_narrative_promotion_witness :
    (TeamState.default.process_request reqC9).1.pm_summaries
        = TeamState.default.pm_summaries ++ [strTrim reqC9.thought] ∧
    (TeamState.default.process_request reqC9).2.pm_summary
        = some (strTrim reqC9.thought) ∧
    ((TeamState.default.process_request reqC9).1.generate_report reqC9
        (TeamState.default.process_request reqC9).2).pm_summary
      = some (strTrim reqC9.thought) :=
  (C9_narrative_promotion TeamState.default reqC9).1 rfl (by decide)

end DeliberateThinking
